import Mathlib

/-!
Shallow embedding of the llvis core: the line-oriented statement recognizer
(`src/lib/parser.js`) and the memory-model replay engine
(`src/lib/memoryModel.js`).

Modelling conventions: JS strings are `String` / `List Char`; JS objects used
as string-keyed maps are association lists in insertion order with
insert-or-overwrite assignment (an existing key keeps its position, a new key
is appended); enumeration (`Object.values`) applies the JS own-property
order — array-index keys first in ascending numeric order, then the
remaining keys in insertion order (`jsOwnEntries`); JS `null` / `undefined`
are `Option`; JS
string truthiness is explicit (`null`, `undefined` and `""` are falsy).  Each
regular expression of `parser.js` is hand-translated to a deterministic
matcher: every repetition in those patterns is a character-class repetition
followed by a character that cannot belong to the class, so greedy matching
without backtracking computes exactly the JS match.
-/

namespace LLVis

/-- The JS `\s` character class: ECMAScript WhiteSpace ∪ LineTerminator
(space, tab, LF, VT, FF, CR, NBSP, BOM, the Unicode `Zs` separators and the
line/paragraph separators). -/
def isJsSpace (c : Char) : Bool :=
  c == '\u0020' || c == '\u0009' || c == '\u000a' || c == '\u000b' ||
  c == '\u000c' || c == '\u000d' || c == '\u00a0' || c == '\ufeff' ||
  c == '\u1680' || c == '\u2000' || c == '\u2001' || c == '\u2002' ||
  c == '\u2003' || c == '\u2004' || c == '\u2005' || c == '\u2006' ||
  c == '\u2007' || c == '\u2008' || c == '\u2009' || c == '\u200a' ||
  c == '\u2028' || c == '\u2029' || c == '\u202f' || c == '\u205f' ||
  c == '\u3000'

/-- The JS LineTerminator class, which the regex `.` does not match. -/
def isLineTerm (c : Char) : Bool :=
  c == '\u000a' || c == '\u000d' || c == '\u2028' || c == '\u2029'

/-- The JS `\w` character class: `[A-Za-z0-9_]`. -/
def isWordChar (c : Char) : Bool :=
  c.isAlphanum || c == '_'

/-- The JS `\d` character class. -/
def isDigitChar (c : Char) : Bool :=
  c.isDigit

/-- `\s*`: greedily drop JS whitespace. -/
def dropSpaces (cs : List Char) : List Char :=
  cs.dropWhile isJsSpace

/-- `(\w+)`: capture one-or-more word characters, or fail. -/
def word1 (cs : List Char) : Option (List Char × List Char) :=
  let w := cs.takeWhile isWordChar
  if w.isEmpty then none else some (w, cs.dropWhile isWordChar)

/-- `(\d+)`: capture one-or-more digits, or fail. -/
def digits1 (cs : List Char) : Option (List Char × List Char) :=
  let w := cs.takeWhile isDigitChar
  if w.isEmpty then none else some (w, cs.dropWhile isDigitChar)

/-- Match a literal character sequence, returning the rest of the input. -/
def lit : List Char → List Char → Option (List Char)
  | [], cs => some cs
  | l :: ls, c :: cs => if c = l then lit ls cs else none
  | _ :: _, [] => none

/-- Match one literal character. -/
def chC (c : Char) : List Char → Option (List Char)
  | c0 :: rest => if c0 = c then some rest else none
  | [] => none

/-- `\s+`: require at least one JS whitespace character, then drop the rest. -/
def chSp : List Char → Option (List Char)
  | c :: rest => if isJsSpace c then some (dropSpaces rest) else none
  | [] => none

/-- Test the head of the input against a predicate (false on empty input). -/
def headIs (p : Char → Bool) : List Char → Bool
  | c :: _ => p c
  | [] => false

/-- `\s*;?\s*$`: the common tail of all five statement regexes. -/
def endOk (cs : List Char) : Bool :=
  match dropSpaces cs with
  | [] => true
  | ';' :: r => (dropSpaces r).isEmpty
  | _ => false

/-- `String.prototype.trim`: strip JS whitespace from both ends. -/
def jsTrim (cs : List Char) : List Char :=
  ((cs.dropWhile isJsSpace).reverse.dropWhile isJsSpace).reverse

/-- `code.split('\n')`: split on every newline; always returns at least one
(possibly empty) line. -/
def splitLines : List Char → List (List Char)
  | [] => [[]]
  | '\n' :: rest => [] :: splitLines rest
  | c :: rest =>
    match splitLines rest with
    | [] => [[c]]
    | l :: ls => (c :: l) :: ls

/-- `parseInt(digits, 10)` on a capture of `\d+`. -/
def natOfDigits (ds : List Char) : Nat :=
  ds.foldl (fun a c => a * 10 + (c.toNat - ('0').toNat)) 0

/-- The four step kinds emitted by `parseCode` (`STEP_TYPES`; the declared
`COMMENT` type is never emitted). -/
inductive StepKind where
  | createNode (varName : String) (value : Int)
  | setNext (varName targetVar : String)
  | setNull (varName : String)
  | assignVar (varName sourceVar : String)
deriving DecidableEq

/-- A recognized step: kind, zero-based source line, display description. -/
structure Step where
  kind : StepKind
  lineIndex : Nat
  description : String
deriving DecidableEq

/-- A per-line recognition error. -/
structure ParseError where
  lineIndex : Nat
  message : String
deriving DecidableEq

/-- `RE_CREATE = /^\s*Node\s+(\w+)\s*=\s*new\s+Node\s*\(\s*(-?\d+)\s*\)\s*;?\s*$/`.
Returns (variable name, raw integer text, parsed value). -/
def matchCreate (cs : List Char) : Option (String × String × Int) := do
  let r0 ← lit (( "Node").toList) (dropSpaces cs)
  let r1 ← chSp r0
  let (v, r2) ← word1 r1
  let r3 ← chC '=' (dropSpaces r2)
  let r4 ← lit (( "new").toList) (dropSpaces r3)
  let r5 ← chSp r4
  let r6 ← lit (( "Node").toList) r5
  let r7 ← chC '(' (dropSpaces r6)
  let (neg, r8) :=
    match dropSpaces r7 with
    | '-' :: rest => (true, rest)
    | rest => (false, rest)
  let (d, r9) ← digits1 r8
  let r10 ← chC ')' (dropSpaces r9)
  if endOk r10 then
    some (String.mk v, String.mk (if neg then '-' :: d else d),
      if neg then -(natOfDigits d : Int) else (natOfDigits d : Int))
  else none

/-- `RE_SET_NULL = /^\s*(\w+)\.next\s*=\s*null\s*;?\s*$/`. -/
def matchSetNull (cs : List Char) : Option String := do
  let (w, r1) ← word1 (dropSpaces cs)
  let r2 ← lit (( ".next").toList) r1
  let r3 ← chC '=' (dropSpaces r2)
  let r4 ← lit (( "null").toList) (dropSpaces r3)
  if endOk r4 then some (String.mk w) else none

/-- `RE_SET_NEXT = /^\s*(\w+)\.next\s*=\s*(\w+)\s*;?\s*$/`. -/
def matchSetNext (cs : List Char) : Option (String × String) := do
  let (w, r1) ← word1 (dropSpaces cs)
  let r2 ← lit (( ".next").toList) r1
  let r3 ← chC '=' (dropSpaces r2)
  let (t, r4) ← word1 (dropSpaces r3)
  if endOk r4 then some (String.mk w, String.mk t) else none

/-- `RE_ASSIGN = /^\s*Node\s+(\w+)\s*=\s*(\w+)\s*;?\s*$/`. -/
def matchAssign (cs : List Char) : Option (String × String) := do
  let r0 ← lit (( "Node").toList) (dropSpaces cs)
  let r1 ← chSp r0
  let (v, r2) ← word1 r1
  let r3 ← chC '=' (dropSpaces r2)
  let (s, r4) ← word1 (dropSpaces r3)
  if endOk r4 then some (String.mk v, String.mk s) else none

/-- `RE_REASSIGN = /^\s*(\w+)\s*=\s*(\w+)\s*;?\s*$/`. -/
def matchReassign (cs : List Char) : Option (String × String) := do
  let (v, r1) ← word1 (dropSpaces cs)
  let r2 ← chC '=' (dropSpaces r1)
  let (s, r3) ← word1 (dropSpaces r2)
  if endOk r3 then some (String.mk v, String.mk s) else none

/-- `SKIP_PATTERNS[0] = /^\s*(\/\/.*)?$/` (blank or comment line). -/
def skip01 (cs : List Char) : Bool :=
  let r := dropSpaces cs
  r.isEmpty ||
    (match lit (( "//").toList) r with
     | some rest => rest.all (fun c => !(isLineTerm c))
     | none => false)

/-- `SKIP_PATTERNS[1] = /^\s*\{?\s*\}?\s*$/` (lone braces). -/
def skip02 (cs : List Char) : Bool :=
  let r := dropSpaces cs
  let r := match r with | '{' :: t => dropSpaces t | _ => r
  let r := match r with | '}' :: t => dropSpaces t | _ => r
  r.isEmpty

/-- `SKIP_PATTERNS[2] = /^\s*class\s+\w+/`. -/
def skip03 (cs : List Char) : Bool :=
  match lit (( "class").toList) (dropSpaces cs) with
  | some r => headIs isJsSpace r && headIs isWordChar (dropSpaces r)
  | none => false

/-- One alternative of `SKIP_PATTERNS[3]`: a keyword followed by `\s+`. -/
def kwThenSpace (kw : String) (cs : List Char) : Bool :=
  match lit kw.toList (dropSpaces cs) with
  | some r => headIs isJsSpace r
  | none => false

/-- `SKIP_PATTERNS[3] = /^\s*(public|private|protected)\s+(static\s+)?/`
(the optional `(static\s+)?` group can always match empty). -/
def skip04 (cs : List Char) : Bool :=
  kwThenSpace ( "public") cs || kwThenSpace ( "private") cs ||
    kwThenSpace ( "protected") cs

/-- One alternative of `SKIP_PATTERNS[4]`: `ty\s+\w+\s*;`. -/
def tyFieldDecl (ty : String) (cs : List Char) : Bool :=
  match lit ty.toList (dropSpaces cs) with
  | some r =>
    (match chSp r with
     | some r1 =>
       (match word1 r1 with
        | some (_, r2) => headIs (fun c => c == ';') (dropSpaces r2)
        | none => false)
     | none => false)
  | none => false

/-- `SKIP_PATTERNS[4] = /^\s*(int|String|Node|void|boolean)\s+\w+\s*;/`. -/
def skip05 (cs : List Char) : Bool :=
  tyFieldDecl ( "int") cs || tyFieldDecl ( "String") cs ||
    tyFieldDecl ( "Node") cs || tyFieldDecl ( "void") cs ||
    tyFieldDecl ( "boolean") cs

/-- One alternative of the constructor-parameter body: `ty\s+\w+\s*\)`. -/
def ctorParam (ty : String) (cs : List Char) : Bool :=
  match lit ty.toList cs with
  | some r =>
    (match chSp r with
     | some r1 =>
       (match word1 r1 with
        | some (_, r2) => headIs (fun c => c == ')') (dropSpaces r2)
        | none => false)
     | none => false)
  | none => false

/-- `SKIP_PATTERNS[5] = /^\s*\w+\s*\(\s*(int|String|Node)\s+\w+\s*\)/`. -/
def skip06 (cs : List Char) : Bool :=
  match word1 (dropSpaces cs) with
  | some (_, r1) =>
    (match chC '(' (dropSpaces r1) with
     | some r2 =>
       let r3 := dropSpaces r2
       ctorParam ( "int") r3 || ctorParam ( "String") r3 || ctorParam ( "Node") r3
     | none => false)
  | none => false

/-- `SKIP_PATTERNS[6] = /^\s*this\.\w+\s*=/`. -/
def skip07 (cs : List Char) : Bool :=
  match lit (( "this.").toList) (dropSpaces cs) with
  | some r =>
    (match word1 r with
     | some (_, r1) => headIs (fun c => c == '=') (dropSpaces r1)
     | none => false)
  | none => false

/-- `SKIP_PATTERNS[7] = /^\s*return\b/`. -/
def skip08 (cs : List Char) : Bool :=
  match lit (( "return").toList) (dropSpaces cs) with
  | some r =>
    (match r with
     | [] => true
     | c :: _ => !(isWordChar c))
  | none => false

/-- `SKIP_PATTERNS[8] = /^\s*\}\s*$/`. -/
def skip09 (cs : List Char) : Bool :=
  match chC '}' (dropSpaces cs) with
  | some r => (dropSpaces r).isEmpty
  | none => false

/-- `SKIP_PATTERNS[9] = /^\s*\{\s*$/`. -/
def skip10 (cs : List Char) : Bool :=
  match chC '{' (dropSpaces cs) with
  | some r => (dropSpaces r).isEmpty
  | none => false

/-- `SKIP_PATTERNS[10] = /^\s*import\s+/`. -/
def skip11 (cs : List Char) : Bool :=
  kwThenSpace ( "import") cs

/-- `SKIP_PATTERNS[11] = /^\s*package\s+/`. -/
def skip12 (cs : List Char) : Bool :=
  kwThenSpace ( "package") cs

/-- `SKIP_PATTERNS.some(re => re.test(line))`. -/
def skipAny (cs : List Char) : Bool :=
  skip01 cs || skip02 cs || skip03 cs || skip04 cs || skip05 cs ||
    skip06 cs || skip07 cs || skip08 cs || skip09 cs || skip10 cs ||
    skip11 cs || skip12 cs

/-- The effect of one source line inside the `lines.forEach` body. -/
inductive LineResult where
  | skip
  | step (k : StepKind) (descr : String)
  | err (message : String)
deriving DecidableEq

/-- One iteration of the `lines.forEach` body of `parseCode`: the boilerplate
filter, then the five statement shapes tried in order with first match
winning, then the unrecognized-syntax fallback. -/
def classifyLine (cs : List Char) : LineResult :=
  if skipAny cs then .skip
  else
    match matchCreate cs with
    | some (v, raw, n) =>
      .step (.createNode v n)
        (( "Create Node(") ++ raw ++ ( ") → assign to `") ++ v ++ ( "`"))
    | none =>
    match matchSetNull cs with
    | some v => .step (.setNull v) (( "Set `") ++ v ++ ( ".next` = null"))
    | none =>
    match matchSetNext cs with
    | some (v, t) =>
      .step (.setNext v t)
        (( "Link `") ++ v ++ ( ".next` → `") ++ t ++ ( "`"))
    | none =>
    match matchAssign cs with
    | some (v, s) =>
      .step (.assignVar v s)
        (( "Declare `") ++ v ++ ( "` → points to same node as `") ++ s ++ ( "`"))
    | none =>
    match matchReassign cs with
    | some (v, s) =>
      .step (.assignVar v s)
        (( "Reassign `") ++ v ++ ( "` → points to same node as `") ++ s ++ ( "`"))
    | none =>
      .err (( "Unrecognized syntax: \"") ++ String.mk (jsTrim cs) ++ ( "\""))

/-- The `lines.forEach` loop: each line appends its step or error (if any), in
order, to the two result arrays; `i` is the zero-based index of the first
line of the remaining list. -/
def parseLines : List (List Char) → Nat → List Step × List ParseError
  | [], _ => ([], [])
  | l :: ls, i =>
    let rest := parseLines ls (i + 1)
    match classifyLine l with
    | .skip => rest
    | .step k d => (⟨k, i, d⟩ :: rest.1, rest.2)
    | .err m => (rest.1, ⟨i, m⟩ :: rest.2)

/-- `parseCode(code)`: split on newlines and process every line in order. -/
def parseCode (code : String) : List Step × List ParseError :=
  parseLines (splitLines code.toList) 0

/-! ## Memory model (`src/lib/memoryModel.js`) -/

/-- A heap node `{ data, next, id }`. -/
structure HeapNode where
  data : Int
  next : Option String
  id : String
deriving DecidableEq

/-- A memory snapshot: `{ stack, heap, addressMap, nextAddr, lastModified }`.
`stack` maps a variable either to an address or to `null` (a present key with
value `none`); an absent key is a variable that was never assigned. -/
structure MemState where
  stack : List (String × Option String)
  heap : List (String × HeapNode)
  addressMap : List (String × String)
  nextAddr : Nat
  lastModified : Option String
deriving DecidableEq

/-- JS object property read `m[k]`: first (only) entry with the key. -/
def lookupKey : List (String × α) → String → Option α
  | [], _ => none
  | (k0, v0) :: t, k => if k0 = k then some v0 else lookupKey t k

/-- JS object property write `m[k] = v`: overwrite in place if the key is
present (keeping its position), otherwise append. -/
def setKey : List (String × α) → String → α → List (String × α)
  | [], k, v => [(k, v)]
  | (k0, v0) :: t, k, v =>
    if k0 = k then (k, v) :: t else (k0, v0) :: setKey t k v

/-- Base-16 digit extraction of `n.toString(16)`, most significant first,
with explicit fuel (one division per unit of fuel always suffices since
`n < 16 ^ fuel` on every call). -/
def hexAux : Nat → Nat → List Char → List Char
  | 0, _, acc => acc
  | fuel + 1, n, acc =>
    let d := Nat.digitChar (n % 16)
    if n < 16 then d :: acc else hexAux fuel (n / 16) (d :: acc)

/-- `n.toString(16)` as a character list (lowercase hex digits). -/
def toHexChars (n : Nat) : List Char :=
  hexAux (n + 1) n []

/-- `makeAddress(counter)`:
`` `0x${(0x100 + counter).toString(16).toUpperCase()}` ``. -/
def makeAddress (counter : Nat) : String :=
  String.mk ('0' :: 'x' :: (toHexChars (256 + counter)).map Char.toUpper)

/-- `initialState()`: the designated empty snapshot. -/
def initialState : MemState :=
  { stack := [], heap := [], addressMap := [], nextAddr := 0,
    lastModified := none }

/-- `applyStep(state, step)`: fold one step onto a snapshot, returning a new
snapshot.  The JS deep clone of `state` is the identity under Lean's value
semantics; `lastModified` is reset to `null` by the clone and then set by the
individual cases.  `s.stack[v]` read as a possibly-missing JS value is
`(lookupKey state.stack v).join` (both `undefined` and `null` become `none`),
and the `if (fromAddr && s.heap[fromAddr])` truthiness tests are explicit
(`none` and the empty string are falsy). -/
def applyStep (state : MemState) (step : Step) : MemState :=
  match step.kind with
  | .createNode v n =>
    let addr := makeAddress state.nextAddr
    { stack := setKey state.stack v (some addr)
      heap := setKey state.heap addr { data := n, next := none, id := addr }
      addressMap := setKey state.addressMap v addr
      nextAddr := state.nextAddr + 1
      lastModified := some addr }
  | .setNext v t =>
    match (lookupKey state.stack v).join with
    | some a =>
      if a.isEmpty then { state with lastModified := none }
      else
        match lookupKey state.heap a with
        | some node =>
          { state with
            heap := setKey state.heap a
              { data := node.data, next := (lookupKey state.stack t).join,
                id := node.id }
            lastModified := some a }
        | none => { state with lastModified := none }
    | none => { state with lastModified := none }
  | .setNull v =>
    match (lookupKey state.stack v).join with
    | some a =>
      if a.isEmpty then { state with lastModified := none }
      else
        match lookupKey state.heap a with
        | some node =>
          { state with
            heap := setKey state.heap a
              { data := node.data, next := none, id := node.id }
            lastModified := some a }
        | none => { state with lastModified := none }
    | none => { state with lastModified := none }
  | .assignVar v src =>
    let srcAddr := (lookupKey state.stack src).join
    { state with stack := setKey state.stack v srcAddr,
                 lastModified := srcAddr }

/-- The `for (let i = 0; i <= stepIndex && i < steps.length; i++)` loop of
`replaySteps`: `i` is the index of the head of the remaining list, so the
`i < steps.length` test is the list-end check. -/
def replayGo (stepIndex : Int) : Nat → MemState → List Step → MemState
  | _, state, [] => state
  | i, state, st :: rest =>
    if (i : Int) ≤ stepIndex then
      replayGo stepIndex (i + 1) (applyStep state st) rest
    else state

/-- `replaySteps(steps, stepIndex)`: replay steps `0..stepIndex` from the
empty snapshot (`-1`, or any negative index, replays nothing). -/
def replaySteps (steps : List Step) (stepIndex : Int) : MemState :=
  replayGo stepIndex 0 initialState steps

/-- The `while (cur && heap[cur] && !visited.has(cur))` loop of `buildChain`
plus its trailing `if (cur && visited.has(cur)) chain.push('CYCLE:' + cur)`.
A visited address is always a heap key, so the two exit tests combine into:
stop silently on falsy `cur` or a non-heap address, emit the cycle sentinel on
a revisit.  The loop adds one unvisited heap key to `visited` per iteration,
so `fuel := heap.length + 1` never runs out (proved below). -/
def chainGo (heap : List (String × HeapNode)) :
    Nat → List String → Option String → List String
  | 0, _, _ => []
  | fuel + 1, visited, cur =>
    match cur with
    | none => []
    | some c =>
      if c.isEmpty then []
      else if visited.contains c then ( "CYCLE:" ++ c) :: []
      else
        match lookupKey heap c with
        | none => []
        | some node => c :: chainGo heap fuel (c :: visited) node.next

/-- `buildChain(heap, startAddr)`. -/
def buildChain (heap : List (String × HeapNode)) (startAddr : String) :
    List String :=
  chainGo heap (heap.length + 1) [] (some startAddr)

/-- `.filter(Boolean)` applied entrywise: keep truthy (nonempty) strings. -/
def truthyStr : Option String → Option String
  | some a => if a.isEmpty then none else some a
  | none => none

/-- `[...new Set(l)]`: deduplicate keeping the first occurrence of each
element, in order; `seen` is the set built so far. -/
def jsDedupAux : List String → List String → List String
  | [], _ => []
  | a :: t, seen =>
    if seen.contains a then jsDedupAux t seen
    else a :: jsDedupAux t (a :: seen)

/-- `[...new Set(l)]`. -/
def jsDedup (l : List String) : List String :=
  jsDedupAux l []

/-- Whether a JS property key is an array index (ECMAScript): the canonical
decimal string of an integer `n` with `0 ≤ n < 2^32 - 1` — all digits, no
leading zero except for `"0"` itself. Such keys are enumerated before all
other keys, in ascending numeric order. -/
def isArrayIndex (s : String) : Bool :=
  match s.toList with
  | [] => false
  | c :: cs =>
    (c :: cs).all isDigitChar && (cs.isEmpty || !(c == '0')) &&
      natOfDigits (c :: cs) < 4294967295

/-- Insert an entry into a list of array-index-keyed entries, keeping the
list sorted by ascending numeric key value (stable). -/
def insertByIndex (p : String × α) :
    List (String × α) → List (String × α)
  | [] => [p]
  | q :: t =>
    if natOfDigits p.1.toList < natOfDigits q.1.toList then p :: q :: t
    else q :: insertByIndex p t

/-- Sort array-index-keyed entries by ascending numeric key value. -/
def sortByIndex : List (String × α) → List (String × α)
  | [] => []
  | p :: t => insertByIndex p (sortByIndex t)

/-- A JS object's own entries in enumeration order
(`OrdinaryOwnPropertyKeys`): entries with array-index keys first, in
ascending numeric order, then the remaining entries in insertion order. -/
def jsOwnEntries (m : List (String × α)) : List (String × α) :=
  sortByIndex (m.filter (fun p => isArrayIndex p.1)) ++
    m.filter (fun p => !(isArrayIndex p.1))

/-- `Object.values(m)`: the values in JS own-property enumeration order. -/
def jsObjValues (m : List (String × α)) : List α :=
  (jsOwnEntries m).map Prod.snd

/-- The `nextAddresses` set of `findHeadAddress`: all truthy `next` targets
of heap nodes (`new Set(Object.values(heap).map(n => n.next).filter(Boolean))`). -/
def heapNextTargets (heap : List (String × HeapNode)) : List String :=
  ((jsObjValues heap).map (fun n => n.next)).filterMap truthyStr

/-- `findHeadAddress(state)`: the first stack-referenced address (in JS
own-property enumeration order of the stack object) that no heap node's
`next` points to, else the first stack-referenced address, else `null`. -/
def findHeadAddress (state : MemState) : Option String :=
  let allAddresses := (jsObjValues state.stack).filterMap truthyStr
  match allAddresses with
  | [] => none
  | a0 :: _ =>
    let nextAddresses := heapNextTargets state.heap
    let heads := allAddresses.filter (fun a => !(nextAddresses.contains a))
    some ((jsDedup heads).headD a0)

/-! ## Association-list lemmas -/

theorem lookupKey_setKey (m : List (String × α)) (k : String) (v : α)
    (w : String) :
    lookupKey (setKey m k v) w = if w = k then some v else lookupKey m w := by
  induction m with
  | nil =>
    rcases eq_or_ne w k with rfl | h
    · simp [setKey, lookupKey]
    · simp [setKey, lookupKey, h, Ne.symm h]
  | cons p t ih =>
    obtain ⟨k0, v0⟩ := p
    by_cases hk : k0 = k
    · subst hk
      rcases eq_or_ne w k0 with rfl | h
      · simp [setKey, lookupKey]
      · simp [setKey, lookupKey, h, Ne.symm h]
    · rcases eq_or_ne w k with rfl | h
      · have : k0 ≠ w := hk
        simp [setKey, lookupKey, hk, this, ih]
      · rcases eq_or_ne k0 w with rfl | h0
        · simp [setKey, lookupKey, hk, h, ih]
        · simp [setKey, lookupKey, hk, h, h0, ih]

theorem lookupKey_eq_none_iff (m : List (String × α)) (k : String) :
    lookupKey m k = none ↔ k ∉ m.map Prod.fst := by
  induction m with
  | nil => simp [lookupKey]
  | cons p t ih =>
    obtain ⟨k0, v0⟩ := p
    rcases eq_or_ne k0 k with rfl | h
    · simp [lookupKey]
    · simp [lookupKey, h, ih, Ne.symm h]

theorem mem_keys_of_lookupKey (m : List (String × α)) (k : String) (x : α)
    (h : lookupKey m k = some x) : k ∈ m.map Prod.fst := by
  by_contra hmem
  rw [← lookupKey_eq_none_iff] at hmem
  simp [hmem] at h

theorem keys_setKey_of_mem (m : List (String × α)) (k : String) (v : α)
    (h : k ∈ m.map Prod.fst) :
    (setKey m k v).map Prod.fst = m.map Prod.fst := by
  induction m with
  | nil => simp at h
  | cons p t ih =>
    obtain ⟨k0, v0⟩ := p
    by_cases hk : k0 = k
    · subst hk; simp [setKey]
    · have ht : k ∈ t.map Prod.fst := by
        simp at h
        rcases h with h | h
        · exact absurd h.symm hk
        · simpa using h
      simp [setKey, hk, ih ht]

theorem keys_setKey_of_not_mem (m : List (String × α)) (k : String) (v : α)
    (h : k ∉ m.map Prod.fst) :
    (setKey m k v).map Prod.fst = m.map Prod.fst ++ [k] := by
  induction m with
  | nil => simp [setKey]
  | cons p t ih =>
    obtain ⟨k0, v0⟩ := p
    have hk : k0 ≠ k := by
      intro hc; exact h (by simp [hc])
    have ht : k ∉ t.map Prod.fst := fun hc => h (by simp [hc])
    simp [setKey, hk, ih ht]

/-! ## `makeAddress` is injective -/

theorem hexAux_eq_digits :
    ∀ (fuel n : Nat) (acc : List Char), 0 < n → n < 16 ^ fuel →
      hexAux fuel n acc =
        ((Nat.digits 16 n).reverse.map Nat.digitChar) ++ acc := by
  intro fuel
  induction fuel with
  | zero => intro n acc h0 hlt; omega
  | succ f ih =>
    intro n acc h0 hlt
    by_cases hn : n < 16
    · have hmod : n % 16 = n := Nat.mod_eq_of_lt hn
      rw [Nat.digits_of_lt 16 n (by omega) hn]
      simp [hexAux, hn, hmod]
    · have hdiv0 : 0 < n / 16 := Nat.div_pos (le_of_not_lt hn) (by norm_num)
      have hdivlt : n / 16 < 16 ^ f := by
        rw [Nat.div_lt_iff_lt_mul (by norm_num)]
        calc n < 16 ^ (f + 1) := hlt
          _ = 16 ^ f * 16 := by rw [pow_succ]
      have hd : Nat.digits 16 n = n % 16 :: Nat.digits 16 (n / 16) :=
        Nat.digits_def' (by norm_num) h0
      simp only [hexAux, hn, if_false]
      rw [ih (n / 16) (Nat.digitChar (n % 16) :: acc) hdiv0 hdivlt, hd]
      simp

theorem toHexChars_eq_digits (n : Nat) (h : 0 < n) :
    toHexChars n = (Nat.digits 16 n).reverse.map Nat.digitChar := by
  have hp : n < 16 ^ (n + 1) := by
    calc n < 16 ^ n := Nat.lt_pow_self (by norm_num) n
      _ ≤ 16 ^ (n + 1) := Nat.pow_le_pow_right (by norm_num) (Nat.le_succ n)
  simpa using hexAux_eq_digits (n + 1) n [] h hp

theorem upperDigitChar_inj :
    ∀ a, a < 16 → ∀ b, b < 16 →
      (Nat.digitChar a).toUpper = (Nat.digitChar b).toUpper → a = b := by
  decide

theorem map_eq_map_inj {f : Nat → Char} :
    ∀ l1 l2 : List Nat, (∀ x ∈ l1, ∀ y ∈ l2, f x = f y → x = y) →
      l1.map f = l2.map f → l1 = l2 := by
  intro l1
  induction l1 with
  | nil => intro l2 _ h; cases l2 <;> simp_all
  | cons a t ih =>
    intro l2 hinj h
    cases l2 with
    | nil => simp at h
    | cons b t2 =>
      simp only [List.map_cons, List.cons.injEq] at h
      have hab : a = b := hinj a (by simp) b (by simp) h.1
      subst hab
      have := ih t2 (fun x hx y hy => hinj x (by simp [hx]) y (by simp [hy]))
        h.2
      simp [this]

theorem makeAddress_inj (m n : Nat) (h : makeAddress m = makeAddress n) :
    m = n := by
  have hm : 0 < 256 + m := by omega
  have hn : 0 < 256 + n := by omega
  unfold makeAddress at h
  rw [toHexChars_eq_digits _ hm, toHexChars_eq_digits _ hn] at h
  rw [String.ext_iff] at h
  simp only [List.cons.injEq, true_and, List.map_map] at h
  have hrev :
      (Nat.digits 16 (256 + m)).reverse = (Nat.digits 16 (256 + n)).reverse := by
    refine map_eq_map_inj _ _ ?_ h
    intro x hx y hy hxy
    exact upperDigitChar_inj x
      (Nat.digits_lt_base (by norm_num) (List.mem_reverse.mp hx)) y
      (Nat.digits_lt_base (by norm_num) (List.mem_reverse.mp hy)) hxy
  have hdig := List.reverse_injective hrev
  have := congrArg (Nat.ofDigits 16) hdig
  rw [Nat.ofDigits_digits, Nat.ofDigits_digits] at this
  omega

/-! ## Recognizer lemmas -/

theorem parseLines_steps_bounds :
    ∀ (ls : List (List Char)) (i : Nat) (s : Step),
      s ∈ (parseLines ls i).1 →
        i ≤ s.lineIndex ∧ s.lineIndex < i + ls.length := by
  intro ls
  induction ls with
  | nil => intro i s h; simp [parseLines] at h
  | cons l t ih =>
    intro i s h
    rcases hc : classifyLine l with _ | ⟨k, d⟩ | m <;>
      simp only [parseLines, hc] at h
    · have := ih (i + 1) s h; simp only [List.length_cons]; omega
    · rcases List.mem_cons.mp h with rfl | h2
      · simp only [List.length_cons]; omega
      · have := ih (i + 1) s h2; simp only [List.length_cons]; omega
    · have := ih (i + 1) s h; simp only [List.length_cons]; omega

theorem parseLines_errs_bounds :
    ∀ (ls : List (List Char)) (i : Nat) (e : ParseError),
      e ∈ (parseLines ls i).2 →
        i ≤ e.lineIndex ∧ e.lineIndex < i + ls.length := by
  intro ls
  induction ls with
  | nil => intro i e h; simp [parseLines] at h
  | cons l t ih =>
    intro i e h
    rcases hc : classifyLine l with _ | ⟨k, d⟩ | m <;>
      simp only [parseLines, hc] at h
    · have := ih (i + 1) e h; simp only [List.length_cons]; omega
    · have := ih (i + 1) e h; simp only [List.length_cons]; omega
    · rcases List.mem_cons.mp h with rfl | h2
      · simp only [List.length_cons]; omega
      · have := ih (i + 1) e h2; simp only [List.length_cons]; omega

theorem parseLines_steps_pairwise :
    ∀ (ls : List (List Char)) (i : Nat),
      List.Pairwise (fun a b => a < b)
        ((parseLines ls i).1.map Step.lineIndex) := by
  intro ls
  induction ls with
  | nil => intro i; simp [parseLines]
  | cons l t ih =>
    intro i
    rcases hc : classifyLine l with _ | ⟨k, d⟩ | m <;>
      simp only [parseLines, hc]
    · exact ih (i + 1)
    · rw [List.map_cons, List.pairwise_cons]
      refine ⟨?_, ih (i + 1)⟩
      intro x hx
      obtain ⟨s, hs, rfl⟩ := List.mem_map.mp hx
      have := (parseLines_steps_bounds t (i + 1) s hs).1
      simpa using lt_of_lt_of_le (Nat.lt_succ_self i) this
    · exact ih (i + 1)

theorem parseLines_errs_pairwise :
    ∀ (ls : List (List Char)) (i : Nat),
      List.Pairwise (fun a b => a < b)
        ((parseLines ls i).2.map ParseError.lineIndex) := by
  intro ls
  induction ls with
  | nil => intro i; simp [parseLines]
  | cons l t ih =>
    intro i
    rcases hc : classifyLine l with _ | ⟨k, d⟩ | m <;>
      simp only [parseLines, hc]
    · exact ih (i + 1)
    · exact ih (i + 1)
    · rw [List.map_cons, List.pairwise_cons]
      refine ⟨?_, ih (i + 1)⟩
      intro x hx
      obtain ⟨e, he, rfl⟩ := List.mem_map.mp hx
      have := (parseLines_errs_bounds t (i + 1) e he).1
      simpa using lt_of_lt_of_le (Nat.lt_succ_self i) this

/-- The contribution of line `j` (zero-based, relative to `base`) to the two
output lists of `parseLines` is exactly dictated by `classifyLine` on that
line; all other lines contribute entries with different indices. -/
theorem parseLines_filter_at :
    ∀ (ls : List (List Char)) (base j : Nat) (hj : j < ls.length),
      ((parseLines ls base).1.filter (fun s => s.lineIndex == base + j) =
        (match classifyLine (ls.get ⟨j, hj⟩) with
         | .step k d => [⟨k, base + j, d⟩]
         | _ => ([] : List Step))) ∧
      ((parseLines ls base).2.filter (fun e => e.lineIndex == base + j) =
        (match classifyLine (ls.get ⟨j, hj⟩) with
         | .err m => [⟨base + j, m⟩]
         | _ => ([] : List ParseError))) := by
  intro ls
  induction ls with
  | nil => intro base j hj; simp at hj
  | cons l t ih =>
    intro base j hj
    have tailSteps : ∀ s ∈ (parseLines t (base + 1)).1,
        ¬(s.lineIndex == base) = true := by
      intro s hs
      have := (parseLines_steps_bounds t (base + 1) s hs).1
      simp only [beq_iff_eq]
      omega
    have tailErrs : ∀ e ∈ (parseLines t (base + 1)).2,
        ¬(e.lineIndex == base) = true := by
      intro e he
      have := (parseLines_errs_bounds t (base + 1) e he).1
      simp only [beq_iff_eq]
      omega
    match j with
    | 0 =>
      rcases hc : classifyLine l with _ | ⟨k, d⟩ | m <;>
        simp only [parseLines, hc, List.get, Nat.add_zero] <;>
        constructor <;>
        first
          | exact List.filter_eq_nil_iff.mpr tailSteps
          | exact List.filter_eq_nil_iff.mpr tailErrs
          | (simp only [List.filter_cons, beq_self_eq_true, if_true]
             rw [List.filter_eq_nil_iff.mpr tailSteps])
          | (simp only [List.filter_cons, beq_self_eq_true, if_true]
             rw [List.filter_eq_nil_iff.mpr tailErrs])
    | j + 1 =>
      have hj' : j < t.length := by simpa using hj
      have hrw : base + (j + 1) = (base + 1) + j := by omega
      have ihx := ih (base + 1) j hj'
      simp only [← hrw] at ihx
      have hne : (base == base + (j + 1)) = false := by
        simp only [beq_eq_false_iff_ne]; omega
      rcases hc : classifyLine l with _ | ⟨k, d⟩ | m
      · simp only [parseLines, hc, List.get]
        exact ihx
      · simp only [parseLines, hc, List.get]
        refine ⟨?_, ihx.2⟩
        simp only [List.filter_cons, hne, Bool.false_eq_true, if_false]
        exact ihx.1
      · simp only [parseLines, hc, List.get]
        refine ⟨ihx.1, ?_⟩
        simp only [List.filter_cons, hne, Bool.false_eq_true, if_false]
        exact ihx.2

/-! ## Replay characterization -/

theorem replayGo_eq_take :
    ∀ (l : List Step) (k : Int) (i : Nat) (s : MemState),
      replayGo k i s l = (l.take ((k + 1).toNat - i)).foldl applyStep s := by
  intro l
  induction l with
  | nil => intro k i s; simp [replayGo]
  | cons st rest ih =>
    intro k i s
    by_cases h : (i : Int) ≤ k
    · have h1 : (k + 1).toNat - i = ((k + 1).toNat - (i + 1)) + 1 := by omega
      rw [replayGo, if_pos h, ih, h1, List.take_succ_cons, List.foldl_cons]
    · have h0 : (k + 1).toNat - i = 0 := by omega
      rw [replayGo, if_neg h, h0]
      simp

theorem replaySteps_eq_take (steps : List Step) (k : Int) :
    replaySteps steps k =
      (steps.take ((k + 1).toNat)).foldl applyStep initialState := by
  simpa using replayGo_eq_take steps k 0 initialState

/-! ## Chain construction lemmas -/

/-- The number of heap keys not yet visited: the quantity the `buildChain`
loop strictly decreases. -/
def freshCount (heap : List (String × HeapNode)) (visited : List String) :
    Nat :=
  ((heap.map Prod.fst).filter (fun k => !(visited.contains k))).length

theorem filter_length_le_of_imp (l : List String) (p q : String → Bool)
    (h : ∀ x, p x = true → q x = true) :
    (l.filter p).length ≤ (l.filter q).length := by
  induction l with
  | nil => simp
  | cons a t ih =>
    simp only [List.filter_cons]
    by_cases hp : p a = true
    · rw [if_pos hp, if_pos (h a hp)]
      simpa using ih
    · rw [if_neg (by simp [hp])]
      by_cases hq : q a = true
      · rw [if_pos hq]
        exact Nat.le_succ_of_le ih
      · rw [if_neg (by simp [hq])]
        exact ih

theorem filter_length_lt_of_witness (l : List String) (p q : String → Bool)
    (h : ∀ x, p x = true → q x = true) (c : String) (hc : c ∈ l)
    (hq : q c = true) (hp : p c = false) :
    (l.filter p).length < (l.filter q).length := by
  induction l with
  | nil => simp at hc
  | cons a t ih =>
    simp only [List.filter_cons]
    rcases List.mem_cons.mp hc with rfl | hct
    · rw [if_neg (by simp [hp]), if_pos hq]
      simpa using Nat.lt_succ_of_le (filter_length_le_of_imp t p q h)
    · by_cases hpa : p a = true
      · rw [if_pos hpa, if_pos (h a hpa)]
        simpa using ih hct
      · rw [if_neg (by simp [hpa])]
        by_cases hqa : q a = true
        · rw [if_pos hqa]
          exact Nat.lt_succ_of_lt (ih hct)
        · rw [if_neg (by simp [hqa])]
          exact ih hct

theorem freshCount_cons_lt (heap : List (String × HeapNode))
    (visited : List String) (c : String) (hmem : c ∈ heap.map Prod.fst)
    (hnv : c ∉ visited) :
    freshCount heap (c :: visited) < freshCount heap visited := by
  refine filter_length_lt_of_witness _ _ _ ?_ c hmem ?_ ?_
  · intro x hx
    simp only [Bool.not_eq_true', List.contains_cons, Bool.or_eq_false_iff] at hx ⊢
    exact hx.2
  · simpa using hnv
  · simp [List.contains_cons]

theorem chainGo_unfold_step (heap : List (String × HeapNode)) (f : Nat)
    (visited : List String) (c : String) (node : HeapNode)
    (hce : ¬c.isEmpty = true) (hcv : c ∉ visited)
    (hL : lookupKey heap c = some node) :
    chainGo heap (f + 1) visited (some c) =
      c :: chainGo heap f (c :: visited) node.next := by
  simp [chainGo, hce, hcv, hL]

theorem chainGo_unfold_cycle (heap : List (String × HeapNode)) (f : Nat)
    (visited : List String) (c : String)
    (hce : ¬c.isEmpty = true) (hcv : c ∈ visited) :
    chainGo heap (f + 1) visited (some c) = ( "CYCLE:" ++ c) :: [] := by
  simp [chainGo, hce, hcv]

theorem chainGo_unfold_miss (heap : List (String × HeapNode)) (f : Nat)
    (visited : List String) (c : String)
    (hce : ¬c.isEmpty = true) (hcv : c ∉ visited)
    (hL : lookupKey heap c = none) :
    chainGo heap (f + 1) visited (some c) = [] := by
  simp [chainGo, hce, hcv, hL]

theorem chainGo_length_le (heap : List (String × HeapNode)) :
    ∀ (fuel : Nat) (visited : List String) (cur : Option String),
      freshCount heap visited < fuel →
      (chainGo heap fuel visited cur).length ≤ freshCount heap visited + 1 := by
  intro fuel
  induction fuel with
  | zero => intro visited cur h; omega
  | succ f ih =>
    intro visited cur h
    match cur with
    | none => simp [chainGo]
    | some c =>
      by_cases hce : c.isEmpty
      · simp [chainGo, hce]
      · by_cases hcv : c ∈ visited
        · rw [chainGo_unfold_cycle heap f visited c hce hcv]
          simp
        · rcases hL : lookupKey heap c with _ | node
          · rw [chainGo_unfold_miss heap f visited c hce hcv hL]
            simp
          · have hmem : c ∈ heap.map Prod.fst := mem_keys_of_lookupKey _ _ _ hL
            have hdec : freshCount heap (c :: visited) < freshCount heap visited :=
              freshCount_cons_lt heap visited c hmem hcv
            have hrec := ih (c :: visited) node.next (by omega)
            rw [chainGo_unfold_step heap f visited c node hce hcv hL,
              List.length_cons]
            omega

theorem freshCount_nil (heap : List (String × HeapNode)) :
    freshCount heap [] = heap.length := by
  unfold freshCount
  have h : ∀ l : List String,
      (l.filter (fun k => !(List.contains [] k))).length = l.length := by
    intro l
    induction l with
    | nil => simp
    | cons a t ih => simp [List.filter_cons, ih]
  rw [h (heap.map Prod.fst), List.length_map]

theorem buildChain_length_le (heap : List (String × HeapNode)) (s : String) :
    (buildChain heap s).length ≤ heap.length + 1 := by
  have h := chainGo_length_le heap (heap.length + 1) [] (some s)
    (by rw [freshCount_nil]; omega)
  rw [freshCount_nil] at h
  exact h

theorem chainGo_prefix_keys (heap : List (String × HeapNode)) :
    ∀ (fuel : Nat) (visited : List String) (cur : Option String)
      (l : List String) (x y : String),
      chainGo heap fuel visited cur = l ++ [x] → y ∈ l →
      y ∈ heap.map Prod.fst := by
  intro fuel
  induction fuel with
  | zero =>
    intro visited cur l x y h
    simp [chainGo] at h
  | succ f ih =>
    intro visited cur l x y h hy
    match cur with
    | none => simp [chainGo] at h
    | some c =>
      by_cases hce : c.isEmpty
      · simp [chainGo, hce] at h
      · by_cases hcv : c ∈ visited
        · rw [chainGo_unfold_cycle heap f visited c hce hcv] at h
          cases l with
          | nil => simp at hy
          | cons c' l' =>
            have hlen := congrArg List.length h
            simp at hlen
        · rcases hL : lookupKey heap c with _ | node
          · rw [chainGo_unfold_miss heap f visited c hce hcv hL] at h
            simp at h
          · rw [chainGo_unfold_step heap f visited c node hce hcv hL] at h
            cases l with
            | nil => simp at hy
            | cons c' l' =>
              simp only [List.cons_append, List.cons.injEq] at h
              rcases List.mem_cons.mp hy with rfl | hy'
              · rw [← h.1]
                exact mem_keys_of_lookupKey _ _ _ hL
              · exact ih (c :: visited) node.next l' x y h.2 hy'

theorem strAppend_left_cancel (p s t : String) (h : p ++ s = p ++ t) :
    s = t := by
  have hd : p.data ++ s.data = p.data ++ t.data := by
    have h1 := congrArg String.data h
    simpa using h1
  rw [String.ext_iff]
  exact List.append_cancel_left hd

theorem chainGo_sentinel (heap : List (String × HeapNode))
    (hpref : ∀ p ∈ heap, ∀ t : String, p.1 ≠ ( "CYCLE:" ++ t)) :
    ∀ (fuel : Nat) (visited : List String) (cur : Option String)
      (l : List String) (a : String),
      chainGo heap fuel visited cur = l ++ [( "CYCLE:" ++ a)] →
      a ∈ visited ∨ a ∈ l := by
  intro fuel
  induction fuel with
  | zero =>
    intro visited cur l a h
    simp [chainGo] at h
  | succ f ih =>
    intro visited cur l a h
    match cur with
    | none => simp [chainGo] at h
    | some c =>
      by_cases hce : c.isEmpty
      · simp [chainGo, hce] at h
      · by_cases hcv : c ∈ visited
        · rw [chainGo_unfold_cycle heap f visited c hce hcv] at h
          cases l with
          | nil =>
            simp only [List.nil_append, List.cons.injEq, and_true] at h
            left
            have hca : c = a := strAppend_left_cancel ( "CYCLE:") c a h
            subst hca
            exact hcv
          | cons c' l' =>
            have hlen := congrArg List.length h
            simp at hlen
        · rcases hL : lookupKey heap c with _ | node
          · rw [chainGo_unfold_miss heap f visited c hce hcv hL] at h
            simp at h
          · rw [chainGo_unfold_step heap f visited c node hce hcv hL] at h
            cases l with
            | nil =>
              simp only [List.nil_append, List.cons.injEq] at h
              exfalso
              have hmem : c ∈ heap.map Prod.fst := mem_keys_of_lookupKey _ _ _ hL
              obtain ⟨p, hp, hpc⟩ := List.mem_map.mp hmem
              exact hpref p hp a (hpc.trans h.1)
            | cons c' l' =>
              simp only [List.cons_append, List.cons.injEq] at h
              rcases ih (c :: visited) node.next l' a h.2 with hv | hl
              · rcases List.mem_cons.mp hv with rfl | hv'
                · right; simp [← h.1]
                · left; exact hv'
              · right; simp [hl]

/-! ## Head-inference lemmas -/

theorem filterMap_truthy_filter_head (p : String → Bool) :
    ∀ A : List (Option String),
      ((A.filterMap truthyStr).filter p).head? =
        (A.find? (fun o =>
          match o with
          | some a => !a.isEmpty && p a
          | none => false)).bind truthyStr := by
  intro A
  induction A with
  | nil => simp
  | cons o t ih =>
    match o with
    | none =>
      rw [List.find?_cons_of_neg _ (by simp)]
      simpa [truthyStr, List.filterMap_cons] using ih
    | some a =>
      by_cases ha : a.isEmpty
      · rw [List.find?_cons_of_neg _ (by simp [ha])]
        simpa [truthyStr, ha, List.filterMap_cons] using ih
      · by_cases hp : p a
        · rw [List.find?_cons_of_pos _ (by simp [ha, hp])]
          simp [truthyStr, ha, hp, List.filterMap_cons, List.filter_cons]
        · rw [List.find?_cons_of_neg _ (by simp [ha, hp])]
          simpa [truthyStr, ha, hp, List.filterMap_cons, List.filter_cons]
            using ih

theorem jsDedup_headD (l : List String) (x : String) :
    (jsDedup l).headD x = l.headD x := by
  cases l with
  | nil => rfl
  | cons a t => simp [jsDedup, jsDedupAux]

/-! ## Heap-key invariant (reachable snapshots) -/

/-- The heap's key list, in insertion order. -/
def heapKeys (s : MemState) : List String := s.heap.map Prod.fst

/-- Whether a step is a CreateNode step. -/
def isCreateStep (st : Step) : Bool :=
  match st.kind with
  | .createNode _ _ => true
  | _ => false

/-- A snapshot obtained by folding some step list onto the empty snapshot
(every snapshot of the application's lifecycle, per the data-model
lifecycle). -/
def Reachable (s : MemState) : Prop :=
  ∃ l : List Step, s = l.foldl applyStep initialState

theorem makeAddress_not_mem_range (n : Nat) :
    makeAddress n ∉ (List.range n).map makeAddress := by
  intro h
  obtain ⟨j, hj, hje⟩ := List.mem_map.mp h
  have := makeAddress_inj j n hje
  rw [List.mem_range] at hj
  omega

/-- Structural case analysis of `applyStep`: a CreateNode step inserts at the
freshly minted address and bumps the counter; every other step keeps the
counter and either keeps the heap or overwrites one existing key in place. -/
theorem applyStep_cases (s : MemState) (st : Step) :
    (isCreateStep st = true ∧ ∃ v n, st.kind = .createNode v n ∧
      (applyStep s st).heap = setKey s.heap (makeAddress s.nextAddr)
        { data := n, next := none, id := makeAddress s.nextAddr } ∧
      (applyStep s st).nextAddr = s.nextAddr + 1) ∨
    (isCreateStep st = false ∧ (applyStep s st).nextAddr = s.nextAddr ∧
      ((applyStep s st).heap = s.heap ∨
       ∃ a node newNode, lookupKey s.heap a = some node ∧
         (applyStep s st).heap = setKey s.heap a newNode)) := by
  obtain ⟨k, li, d⟩ := st
  rcases k with ⟨v, n⟩ | ⟨v, t⟩ | v | ⟨v, src⟩
  · left
    exact ⟨rfl, v, n, rfl, rfl, rfl⟩
  · right
    refine ⟨rfl, ?_, ?_⟩
    · rcases hs : lookupKey s.stack v with _ | oa
      · simp [applyStep, hs]
      · rcases oa with _ | a
        · simp [applyStep, hs]
        · by_cases ha : a.isEmpty
          · simp [applyStep, hs, ha]
          · rcases hL : lookupKey s.heap a with _ | node <;>
              simp [applyStep, hs, ha, hL]
    · rcases hs : lookupKey s.stack v with _ | oa
      · simp [applyStep, hs]
      · rcases oa with _ | a
        · simp [applyStep, hs]
        · by_cases ha : a.isEmpty
          · simp [applyStep, hs, ha]
          · rcases hL : lookupKey s.heap a with _ | node
            · simp [applyStep, hs, ha, hL]
            · refine Or.inr ⟨a, node,
                { data := node.data, next := (lookupKey s.stack t).join,
                  id := node.id }, hL, ?_⟩
              simp [applyStep, hs, ha, hL, Option.join]
  · right
    refine ⟨rfl, ?_, ?_⟩
    · rcases hs : lookupKey s.stack v with _ | oa
      · simp [applyStep, hs]
      · rcases oa with _ | a
        · simp [applyStep, hs]
        · by_cases ha : a.isEmpty
          · simp [applyStep, hs, ha]
          · rcases hL : lookupKey s.heap a with _ | node <;>
              simp [applyStep, hs, ha, hL]
    · rcases hs : lookupKey s.stack v with _ | oa
      · simp [applyStep, hs]
      · rcases oa with _ | a
        · simp [applyStep, hs]
        · by_cases ha : a.isEmpty
          · simp [applyStep, hs, ha]
          · rcases hL : lookupKey s.heap a with _ | node
            · simp [applyStep, hs, ha, hL]
            · refine Or.inr ⟨a, node,
                { data := node.data, next := none, id := node.id }, hL, ?_⟩
              simp [applyStep, hs, ha, hL]
  · right
    exact ⟨rfl, rfl, Or.inl rfl⟩

theorem mem_keys_setKey (m : List (String × α)) (k : String) (v : α)
    (a : String) (h : a ∈ m.map Prod.fst) :
    a ∈ (setKey m k v).map Prod.fst := by
  by_cases hk : k ∈ m.map Prod.fst
  · rw [keys_setKey_of_mem _ _ _ hk]; exact h
  · rw [keys_setKey_of_not_mem _ _ _ hk]; exact List.mem_append_left _ h

theorem heapKeys_applyStep_inv (s : MemState) (st : Step)
    (hinv : heapKeys s = (List.range s.nextAddr).map makeAddress) :
    heapKeys (applyStep s st) =
      (List.range (applyStep s st).nextAddr).map makeAddress := by
  rcases applyStep_cases s st with
    ⟨_, v, n, hk, hheap, hna⟩ | ⟨_, hna, hheap | ⟨a, node, newNode, hL, hheap⟩⟩
  · unfold heapKeys at hinv ⊢
    have hfresh : makeAddress s.nextAddr ∉ s.heap.map Prod.fst := by
      rw [hinv]; exact makeAddress_not_mem_range s.nextAddr
    rw [hheap, hna, keys_setKey_of_not_mem _ _ _ hfresh, hinv,
      List.range_succ, List.map_append]
    simp
  · unfold heapKeys at hinv ⊢
    rw [hheap, hna, hinv]
  · unfold heapKeys at hinv ⊢
    rw [hheap, keys_setKey_of_mem _ _ _ (mem_keys_of_lookupKey _ _ _ hL),
      hna, hinv]

theorem heapKeys_foldl_inv :
    ∀ (l : List Step) (s : MemState),
      heapKeys s = (List.range s.nextAddr).map makeAddress →
      heapKeys (l.foldl applyStep s) =
        (List.range (l.foldl applyStep s).nextAddr).map makeAddress := by
  intro l
  induction l with
  | nil => intro s h; simpa using h
  | cons st rest ih =>
    intro s h
    exact ih (applyStep s st) (heapKeys_applyStep_inv s st h)

theorem reachable_heapKeys (s : MemState) (h : Reachable s) :
    heapKeys s = (List.range s.nextAddr).map makeAddress := by
  obtain ⟨l, rfl⟩ := h
  exact heapKeys_foldl_inv l initialState (by simp [heapKeys, initialState])

theorem nextAddr_applyStep (s : MemState) (st : Step) :
    (applyStep s st).nextAddr =
      s.nextAddr + (if isCreateStep st then 1 else 0) := by
  rcases applyStep_cases s st with ⟨hc, _, _, _, _, hna⟩ | ⟨hc, hna, _⟩ <;>
    simp [hc, hna]

theorem nextAddr_foldl :
    ∀ (l : List Step) (s : MemState),
      (l.foldl applyStep s).nextAddr = s.nextAddr + l.countP isCreateStep := by
  intro l
  induction l with
  | nil => intro s; simp
  | cons st rest ih =>
    intro s
    rw [List.foldl_cons, ih (applyStep s st), nextAddr_applyStep,
      List.countP_cons]
    by_cases hc : isCreateStep st
    · simp [hc]
      omega
    · simp [hc]

/-! ## Claim theorems -/

/-- C1: for every step list and every integer `k < steps.length`,
`replaySteps steps k` equals the left fold of `applyStep` over the prefix
`steps[0..k]` starting from the empty snapshot, and for every negative `k`
(not only `-1`) it returns the empty snapshot (empty stack, empty heap,
address counter 0, no last-touched address). -/
theorem C1_replay_fold (steps : List Step) (k : Int) :
    (k < (steps.length : Int) →
      replaySteps steps k =
        (steps.take ((k + 1).toNat)).foldl applyStep initialState) ∧
    (k < 0 → replaySteps steps k = initialState) ∧
    initialState =
      { stack := [], heap := [], addressMap := [], nextAddr := 0,
        lastModified := none } := by
  refine ⟨fun _ => replaySteps_eq_take steps k, fun hk => ?_, rfl⟩
  rw [replaySteps_eq_take steps k]
  have h0 : (k + 1).toNat = 0 := by omega
  rw [h0]
  simp

/-- Witness for C1 at a concrete one-step list, replay indices 0 and -2. -/
theorem C1_replay_fold_witness :
    replaySteps [⟨.createNode ( "a") 5, 0, ( "d")⟩] 0 =
      (([⟨.createNode ( "a") 5, 0, ( "d")⟩] : List Step).take
        ((0 + 1 : Int).toNat)).foldl applyStep initialState ∧
    replaySteps [⟨.createNode ( "a") 5, 0, ( "d")⟩] (-2) = initialState :=
  ⟨(C1_replay_fold [⟨.createNode ( "a") 5, 0, ( "d")⟩] 0).1 (by decide),
   (C1_replay_fold [⟨.createNode ( "a") 5, 0, ( "d")⟩] (-2)).2.1 (by decide)⟩

/-- C10: an out-of-range replay index (`k ≥ steps.length`) is silently
clamped: the result equals the full replay `replaySteps steps
(steps.length - 1)`. -/
theorem C10_replay_clamp (steps : List Step) (k : Int)
    (h : (steps.length : Int) ≤ k) :
    replaySteps steps k = replaySteps steps ((steps.length : Int) - 1) := by
  rw [replaySteps_eq_take, replaySteps_eq_take]
  have h1 : steps.length ≤ (k + 1).toNat := by omega
  have h2 : ((steps.length : Int) - 1 + 1).toNat = steps.length := by omega
  rw [h2, List.take_length, List.take_of_length_le h1]

/-- Witness for C10 at a concrete one-step list and index 7. -/
theorem C10_replay_clamp_witness :
    replaySteps [⟨.createNode ( "a") 5, 0, ( "d")⟩] 7 =
      replaySteps [⟨.createNode ( "a") 5, 0, ( "d")⟩]
        ((([⟨.createNode ( "a") 5, 0, ( "d")⟩] : List Step).length : Int) - 1) :=
  C10_replay_clamp [⟨.createNode ( "a") 5, 0, ( "d")⟩] 7 (by decide)

/-- C8: an AssignVar step copies the source variable's current address (null
when the source is unbound) into the target variable's stack slot, never
mints an address (heap, address map and address counter are unchanged,
every other stack slot is unchanged), and sets `lastModified` to the copied
address (or null). -/
theorem C8_assignVar_copy (state : MemState) (v src : String) (li : Nat)
    (d : String) :
    (applyStep state ⟨.assignVar v src, li, d⟩).heap = state.heap ∧
    (applyStep state ⟨.assignVar v src, li, d⟩).nextAddr = state.nextAddr ∧
    (applyStep state ⟨.assignVar v src, li, d⟩).addressMap = state.addressMap ∧
    (applyStep state ⟨.assignVar v src, li, d⟩).lastModified =
      (lookupKey state.stack src).join ∧
    ∀ w : String,
      lookupKey (applyStep state ⟨.assignVar v src, li, d⟩).stack w =
        if w = v then some ((lookupKey state.stack src).join)
        else lookupKey state.stack w := by
  refine ⟨rfl, rfl, rfl, rfl, fun w => ?_⟩
  exact lookupKey_setKey state.stack v ((lookupKey state.stack src).join) w

/-- C3: a SetNext or SetNull step whose variable is unbound, bound to null,
or bound to an address with no heap entry is a silent no-op: stack, heap,
address map and counter are returned unchanged and `lastModified` is null;
moreover the undeclared-variable program `x.next = y;` is recognized with
zero errors as one SetNext step whose replay leaves the heap empty. -/
theorem C3_dangling_noop (state : MemState) (v : String)
    (h : lookupKey state.stack v = none ∨
         lookupKey state.stack v = some none ∨
         ∃ a, lookupKey state.stack v = some (some a) ∧
           lookupKey state.heap a = none) :
    (∀ (t : String) (li : Nat) (d : String),
      (applyStep state ⟨.setNext v t, li, d⟩).stack = state.stack ∧
      (applyStep state ⟨.setNext v t, li, d⟩).heap = state.heap ∧
      (applyStep state ⟨.setNext v t, li, d⟩).nextAddr = state.nextAddr ∧
      (applyStep state ⟨.setNext v t, li, d⟩).addressMap = state.addressMap ∧
      (applyStep state ⟨.setNext v t, li, d⟩).lastModified = none) ∧
    (∀ (li : Nat) (d : String),
      (applyStep state ⟨.setNull v, li, d⟩).stack = state.stack ∧
      (applyStep state ⟨.setNull v, li, d⟩).heap = state.heap ∧
      (applyStep state ⟨.setNull v, li, d⟩).nextAddr = state.nextAddr ∧
      (applyStep state ⟨.setNull v, li, d⟩).addressMap = state.addressMap ∧
      (applyStep state ⟨.setNull v, li, d⟩).lastModified = none) ∧
    parseCode ( "x.next = y;") =
      ([⟨.setNext ( "x") ( "y"), 0, ( "Link `x.next` → `y`")⟩], []) ∧
    (replaySteps (parseCode ( "x.next = y;")).1 0).heap =
      initialState.heap := by
  refine ⟨fun t li d => ?_, fun li d => ?_, by decide, by decide⟩
  · rcases h with hs | hs | ⟨a, hs, hL⟩
    · simp [applyStep, hs]
    · simp [applyStep, hs]
    · by_cases ha : a.isEmpty
      · simp [applyStep, hs, ha]
      · simp [applyStep, hs, ha, hL]
  · rcases h with hs | hs | ⟨a, hs, hL⟩
    · simp [applyStep, hs]
    · simp [applyStep, hs]
    · by_cases ha : a.isEmpty
      · simp [applyStep, hs, ha]
      · simp [applyStep, hs, ha, hL]

/-- Witness for C3 at the empty snapshot and the variable `x`. -/
theorem C3_dangling_noop_witness :
    (applyStep initialState ⟨.setNext ( "x") ( "y"), 0, ( "d")⟩).heap =
      initialState.heap :=
  ((C3_dangling_noop initialState ( "x") (Or.inl (by decide))).1
    ( "y") 0 ( "d")).2.1

/-- C4: `buildChain` is total (terminates on every heap, cyclic ones
included) and returns at most `heap.length + 1` entries; when the heap's own
addresses never carry the reserved prefix and the chain ends in the cycle
sentinel `"CYCLE:" ++ a`, the tagged address `a` already appears earlier in
the chain, and every earlier entry is a heap address that does not carry the
reserved prefix (so the sentinel is distinguishable from all of them). -/
theorem C4_buildChain_cycle (heap : List (String × HeapNode))
    (startAddr : String) :
    (buildChain heap startAddr).length ≤ heap.length + 1 ∧
    (∀ (l : List String) (a : String),
      (∀ p ∈ heap, ∀ t : String, p.1 ≠ ( "CYCLE:" ++ t)) →
      buildChain heap startAddr = l ++ [( "CYCLE:" ++ a)] →
      a ∈ l ∧
      ∀ x ∈ l, x ∈ heap.map Prod.fst ∧
        ∀ t : String, x ≠ ( "CYCLE:" ++ t)) := by
  refine ⟨buildChain_length_le heap startAddr, ?_⟩
  intro l a hpref hchain
  have ha : a ∈ l := by
    rcases chainGo_sentinel heap hpref (heap.length + 1) [] (some startAddr)
      l a hchain with hv | hl
    · simp at hv
    · exact hl
  refine ⟨ha, fun x hx => ?_⟩
  have hk := chainGo_prefix_keys heap (heap.length + 1) [] (some startAddr)
    l ( "CYCLE:" ++ a) x hchain hx
  refine ⟨hk, fun t hxt => ?_⟩
  obtain ⟨p, hp, hpc⟩ := List.mem_map.mp hk
  exact hpref p hp t (hpc.trans hxt)

/-- Witness for C4 on the two-node cyclic heap A → B → A. -/
theorem C4_buildChain_cycle_witness :
    (buildChain
        [(( "0xA"), ⟨1, some ( "0xB"), ( "0xA")⟩),
         (( "0xB"), ⟨2, some ( "0xA"), ( "0xB")⟩)] ( "0xA")).length ≤ 3 ∧
    ( "0xA") ∈ [( "0xA"), ( "0xB")] := by
  have hpref : ∀ p ∈
      [(( "0xA"), (⟨1, some ( "0xB"), ( "0xA")⟩ : HeapNode)),
       (( "0xB"), ⟨2, some ( "0xA"), ( "0xB")⟩)],
      ∀ t : String, p.1 ≠ ( "CYCLE:" ++ t) := by
    intro p hp t he
    have hlen := congrArg String.length he
    rw [String.length_append] at hlen
    have h6 : String.length ( "CYCLE:") = 6 := by decide
    rcases List.mem_cons.mp hp with rfl | hp2
    · have h3 : String.length ( "0xA") = 3 := by decide
      simp only at hlen
      omega
    · rcases List.mem_cons.mp hp2 with rfl | hp3
      · have h3 : String.length ( "0xB") = 3 := by decide
        simp only at hlen
        omega
      · simp at hp3
  have h := (C4_buildChain_cycle
    [(( "0xA"), ⟨1, some ( "0xB"), ( "0xA")⟩),
     (( "0xB"), ⟨2, some ( "0xA"), ( "0xB")⟩)] ( "0xA")).2
    [( "0xA"), ( "0xB")] ( "0xA") hpref (by decide)
  exact ⟨(C4_buildChain_cycle _ _).1, h.1⟩

/-- C2: on every reachable snapshot a CreateNode step mints a fresh address
absent from the heap, inserts a heap entry with the step's value and a null
next pointer there, and binds the step's variable to it; replaying any step
list yields a heap with exactly one entry per CreateNode step, keyed by the
addresses minted in step order (hence pairwise distinct); the address counter
never decreases across any step, and no step ever deletes a heap key. -/
theorem C2_createNode_minting :
    (∀ s : MemState, Reachable s →
      ∀ (v : String) (n : Int) (li : Nat) (d : String),
        lookupKey s.heap (makeAddress s.nextAddr) = none ∧
        lookupKey (applyStep s ⟨.createNode v n, li, d⟩).heap
            (makeAddress s.nextAddr) =
          some { data := n, next := none, id := makeAddress s.nextAddr } ∧
        lookupKey (applyStep s ⟨.createNode v n, li, d⟩).stack v =
          some (some (makeAddress s.nextAddr))) ∧
    (∀ steps : List Step,
      (steps.foldl applyStep initialState).heap.length =
        steps.countP isCreateStep ∧
      heapKeys (steps.foldl applyStep initialState) =
        (List.range (steps.countP isCreateStep)).map makeAddress ∧
      (heapKeys (steps.foldl applyStep initialState)).Nodup) ∧
    (∀ (s : MemState) (st : Step), s.nextAddr ≤ (applyStep s st).nextAddr) ∧
    (∀ (s : MemState) (st : Step) (a : String),
      a ∈ heapKeys s → a ∈ heapKeys (applyStep s st)) := by
  refine ⟨?_, ?_, ?_, ?_⟩
  · intro s hr v n li d
    have hinv := reachable_heapKeys s hr
    have hfresh : makeAddress s.nextAddr ∉ s.heap.map Prod.fst := by
      rw [show s.heap.map Prod.fst = heapKeys s from rfl, hinv]
      exact makeAddress_not_mem_range s.nextAddr
    refine ⟨(lookupKey_eq_none_iff _ _).mpr hfresh, ?_, ?_⟩
    · rw [show (applyStep s ⟨.createNode v n, li, d⟩).heap =
          setKey s.heap (makeAddress s.nextAddr)
            { data := n, next := none, id := makeAddress s.nextAddr }
          from rfl]
      rw [lookupKey_setKey]
      simp
    · rw [show (applyStep s ⟨.createNode v n, li, d⟩).stack =
          setKey s.stack v (some (makeAddress s.nextAddr)) from rfl]
      rw [lookupKey_setKey]
      simp
  · intro steps
    have hna : (steps.foldl applyStep initialState).nextAddr =
        steps.countP isCreateStep := by
      have := nextAddr_foldl steps initialState
      simpa [initialState] using this
    have hkeys := heapKeys_foldl_inv steps initialState
      (by simp [heapKeys, initialState])
    rw [hna] at hkeys
    refine ⟨?_, hkeys, ?_⟩
    · have := congrArg List.length hkeys
      simpa [heapKeys] using this
    · rw [hkeys]
      exact (List.nodup_range _).map
        (fun a b hab => makeAddress_inj a b hab)
  · intro s st
    rw [nextAddr_applyStep]
    by_cases hc : isCreateStep st <;> simp [hc]
  · intro s st a ha
    rcases applyStep_cases s st with
      ⟨_, v, n, hk, hheap, hna⟩ | ⟨_, hna, hheap | ⟨b, node, newNode, hL, hheap⟩⟩
    · unfold heapKeys at ha ⊢
      rw [hheap]
      exact mem_keys_setKey _ _ _ _ ha
    · unfold heapKeys at ha ⊢
      rw [hheap]
      exact ha
    · unfold heapKeys at ha ⊢
      rw [hheap]
      exact mem_keys_setKey _ _ _ _ ha

/-- Witness for C2 at the (reachable) empty snapshot. -/
theorem C2_createNode_minting_witness :
    lookupKey initialState.heap (makeAddress initialState.nextAddr) = none ∧
    lookupKey (applyStep initialState
        ⟨.createNode ( "a") 5, 0, ( "d")⟩).heap
        (makeAddress initialState.nextAddr) =
      some { data := 5, next := none, id := makeAddress initialState.nextAddr } := by
  have h := C2_createNode_minting.1 initialState ⟨[], rfl⟩ ( "a") 5 0 ( "d")
  exact ⟨h.1, h.2.1⟩

/-- The claim's candidate-head test on a stack value: it holds a (truthy)
address that is not the (truthy) `next` target of any heap node. -/
def isCandidate (nexts : List String) : Option String → Bool
  | some a => !a.isEmpty && !(nexts.contains a)
  | none => false

/-- The claim's "bound to an address" test on a stack value. -/
def isBoundAddr : Option String → Bool
  | some a => !a.isEmpty
  | none => false

theorem find?_snd (pred : Option String → Bool) :
    ∀ l : List (String × Option String),
      (l.map Prod.snd).find? pred =
        (l.find? (fun q => pred q.2)).map Prod.snd := by
  intro l
  induction l with
  | nil => simp
  | cons q t ih =>
    by_cases hq : pred q.2
    · simp [List.find?_cons, hq]
    · simp [List.find?_cons, hq, ih]

theorem boundAddr_eq_true_and :
    (fun o => match o with
      | some a => !a.isEmpty && true
      | none => false) = isBoundAddr := by
  funext o
  cases o <;> simp [isBoundAddr]

/-- Membership is invariant under `insertByIndex`. -/
theorem mem_insertByIndex (p x : String × α) :
    ∀ l : List (String × α), x ∈ insertByIndex p l ↔ x = p ∨ x ∈ l := by
  intro l
  induction l with
  | nil => simp [insertByIndex]
  | cons q t ih =>
    by_cases hlt : natOfDigits p.1.data < natOfDigits q.1.data
    · simp [insertByIndex, hlt]
    · simp [insertByIndex, hlt, ih]
      tauto

/-- Membership is invariant under `sortByIndex`. -/
theorem mem_sortByIndex (x : String × α) :
    ∀ l : List (String × α), x ∈ sortByIndex l ↔ x ∈ l := by
  intro l
  induction l with
  | nil => simp [sortByIndex]
  | cons p t ih => simp [sortByIndex, mem_insertByIndex, ih]

/-- `jsOwnEntries` is a reordering: membership is unchanged. -/
theorem mem_jsOwnEntries (x : String × α) (m : List (String × α)) :
    x ∈ jsOwnEntries m ↔ x ∈ m := by
  unfold jsOwnEntries
  simp only [List.mem_append, mem_sortByIndex, List.mem_filter]
  by_cases h : isArrayIndex x.1 <;> simp [h]

/-- C5 (amended): `findHeadAddress` returns null exactly when no stack
variable holds a (truthy) address; otherwise it returns the address of the
first stack entry in JS own-property enumeration order (array-index names
first in ascending numeric order, then the rest in insertion order) whose
address is the target of no heap node's next pointer; and when no
stack-referenced address qualifies (e.g. every one sits on a cycle) it falls
back to the address of the first stack entry, in that same enumeration
order, holding an address. -/
theorem C5_findHead_enum_spec (state : MemState) :
    (findHeadAddress state = none ↔
      ∀ p ∈ state.stack, truthyStr p.2 = none) ∧
    (∀ p : String × Option String,
      (jsOwnEntries state.stack).find?
          (fun q => isCandidate (heapNextTargets state.heap) q.2) = some p →
      findHeadAddress state = p.2) ∧
    ((jsOwnEntries state.stack).find?
        (fun q => isCandidate (heapNextTargets state.heap) q.2) = none →
      ∀ p : String × Option String,
        (jsOwnEntries state.stack).find? (fun q => isBoundAddr q.2) = some p →
        findHeadAddress state = p.2) := by
  have hheads :
      (((jsObjValues state.stack).filterMap truthyStr).filter
        (fun a => !((heapNextTargets state.heap).contains a))).head? =
      ((jsObjValues state.stack).find?
        (isCandidate (heapNextTargets state.heap))).bind truthyStr :=
    filterMap_truthy_filter_head _ (jsObjValues state.stack)
  have hall :
      ((jsObjValues state.stack).filterMap truthyStr).head? =
      ((jsObjValues state.stack).find? isBoundAddr).bind truthyStr := by
    have h := filterMap_truthy_filter_head (fun _ => true)
      (jsObjValues state.stack)
    rw [boundAddr_eq_true_and] at h
    simpa using h
  refine ⟨⟨?_, ?_⟩, ?_, ?_⟩
  · intro h p hp
    rcases hA : (jsObjValues state.stack).filterMap truthyStr
      with _ | ⟨a0, rest⟩
    · have hmem : p.2 ∈ jsObjValues state.stack := by
        simp only [jsObjValues]
        exact List.mem_map_of_mem _ ((mem_jsOwnEntries p state.stack).mpr hp)
      exact List.filterMap_eq_nil_iff.mp hA p.2 hmem
    · exfalso
      have hne : findHeadAddress state ≠ none := by
        simp [findHeadAddress, hA]
      exact hne h
  · intro h
    have hA : (jsObjValues state.stack).filterMap truthyStr = [] :=
      List.filterMap_eq_nil_iff.mpr (by
        intro o ho
        simp only [jsObjValues] at ho
        obtain ⟨p, hp, rfl⟩ := List.mem_map.mp ho
        exact h p ((mem_jsOwnEntries p state.stack).mp hp))
    simp [findHeadAddress, hA]
  · intro p hp
    have hpe := List.find?_some hp
    rcases hp2 : p.2 with _ | a
    · rw [hp2] at hpe
      simp [isCandidate] at hpe
    · have hae : ¬a.isEmpty = true := by
        rw [hp2] at hpe
        by_contra hc
        simp [isCandidate, hc] at hpe
      have hfm : (jsObjValues state.stack).find?
          (isCandidate (heapNextTargets state.heap)) = some p.2 := by
        simp only [jsObjValues]
        rw [find?_snd, hp]
        rfl
      have hh := hheads
      rw [hfm, hp2] at hh
      simp only [Option.some_bind] at hh
      rw [show truthyStr (some a) = some a by simp [truthyStr, hae]] at hh
      rcases hA : (jsObjValues state.stack).filterMap truthyStr
        with _ | ⟨a0, rest⟩
      · rw [hA] at hh
        simp at hh
      · rw [hA] at hh
        rcases hf : (a0 :: rest).filter
            (fun x => !((heapNextTargets state.heap).contains x))
          with _ | ⟨h0, t0⟩
        · rw [hf] at hh
          simp at hh
        · rw [hf] at hh
          simp only [List.head?_cons, Option.some.injEq] at hh
          simp only [findHeadAddress, hA]
          rw [hf, jsDedup_headD]
          simp [hh]
  · intro hn p hp
    have hfmn : (jsObjValues state.stack).find?
        (isCandidate (heapNextTargets state.heap)) = none := by
      simp only [jsObjValues]
      rw [find?_snd, hn]
      rfl
    have hh := hheads
    rw [hfmn] at hh
    simp only [Option.none_bind] at hh
    have hpe := List.find?_some hp
    rcases hp2 : p.2 with _ | a
    · rw [hp2] at hpe
      simp [isBoundAddr] at hpe
    · have hae : ¬a.isEmpty = true := by
        rw [hp2] at hpe
        simpa [isBoundAddr] using hpe
      have hfmb : (jsObjValues state.stack).find? isBoundAddr = some p.2 := by
        simp only [jsObjValues]
        rw [find?_snd, hp]
        rfl
      have hal := hall
      rw [hfmb, hp2] at hal
      simp only [Option.some_bind] at hal
      rw [show truthyStr (some a) = some a by simp [truthyStr, hae]] at hal
      rcases hA : (jsObjValues state.stack).filterMap truthyStr
        with _ | ⟨a0, rest⟩
      · rw [hA] at hal
        simp at hal
      · rw [hA] at hal
        simp only [List.head?_cons, Option.some.injEq] at hal
        rw [hA] at hh
        have hf0 : (a0 :: rest).filter
            (fun x => !((heapNextTargets state.heap).contains x)) = [] :=
          List.head?_eq_none_iff.mp hh
        simp only [findHeadAddress, hA]
        rw [hf0]
        simp [jsDedup, jsDedupAux, hal]

/-- Counterexample to C5 as stated: after `Node a = new Node(1);` then
`Node 0 = new Node(2);`, the first stack variable by insertion order whose
address is a candidate head is `a` at `0x100`, yet the program returns
`0x101` — `Object.values` enumerates the array-index variable name `"0"`
before `"a"`, so head selection does not follow insertion order. -/
theorem C5_findHead_insertion_counterexample :
    ((replaySteps (parseCode
        ( "Node a = new Node(1);\nNode 0 = new Node(2);")).1 1).stack.find?
      (fun q => isCandidate (heapNextTargets
        (replaySteps (parseCode
          ( "Node a = new Node(1);\nNode 0 = new Node(2);")).1 1).heap) q.2)
      = some (( "a"), some ( "0x100"))) ∧
    findHeadAddress (replaySteps (parseCode
        ( "Node a = new Node(1);\nNode 0 = new Node(2);")).1 1) =
      some ( "0x101") ∧
    (some ( "0x101") : Option String) ≠ some ( "0x100") :=
  ⟨by decide, by decide, by decide⟩

/-- Witness for the amended C5 at the same snapshot: the first stack entry
in JS enumeration order is the array-index variable `0`, and its address is
returned. -/
theorem C5_findHead_enum_spec_witness :
    findHeadAddress (replaySteps (parseCode
        ( "Node a = new Node(1);\nNode 0 = new Node(2);")).1 1) =
      some ( "0x101") :=
  (C5_findHead_enum_spec _).2.1 (( "0"), some ( "0x101")) (by decide)

/-- C7: `recognize` is a total function of the input string; every emitted
step and error carries a `lineIndex` strictly within `[0, lineCount)` where
`lineCount` is the number of newline-split lines, and both output lists are
strictly ascending in `lineIndex` — steps appear in source order with no
reordering. -/
theorem C7_recognize_ordered (code : String) :
    (∀ s ∈ (parseCode code).1,
      s.lineIndex < (splitLines code.toList).length) ∧
    (∀ e ∈ (parseCode code).2,
      e.lineIndex < (splitLines code.toList).length) ∧
    List.Pairwise (fun a b => a < b)
      ((parseCode code).1.map Step.lineIndex) ∧
    List.Pairwise (fun a b => a < b)
      ((parseCode code).2.map ParseError.lineIndex) := by
  refine ⟨?_, ?_, parseLines_steps_pairwise _ 0, parseLines_errs_pairwise _ 0⟩
  · intro s hs
    have := parseLines_steps_bounds (splitLines code.toList) 0 s hs
    omega
  · intro e he
    have := parseLines_errs_bounds (splitLines code.toList) 0 e he
    omega

/-- Witness for C7 on a two-line input with one step and one error. -/
theorem C7_recognize_ordered_witness :
    (⟨.createNode ( "a") 5, 0, ( "Create Node(5) → assign to `a`")⟩ : Step) ∈
      (parseCode ( "Node a = new Node(5);\nfoo bar")).1 ∧
    (0 : Nat) < (splitLines ( "Node a = new Node(5);\nfoo bar").toList).length :=
  ⟨by decide,
   (C7_recognize_ordered ( "Node a = new Node(5);\nfoo bar")).1
     ⟨.createNode ( "a") 5, 0, ( "Create Node(5) → assign to `a`")⟩
     (by decide)⟩

/-- C9: a line matching no boilerplate pattern and no statement shape
contributes exactly one ParseError — whose message is
`Unrecognized syntax: "<trimmed line text>"` — and no step, and every other
line's contribution is unaffected (parsing continues past the bad line); the
input `foo bar baz` yields zero steps and exactly that error. -/
theorem C9_unrecognized_fallback (code : String) (j : Nat)
    (hj : j < (splitLines code.toList).length)
    (hskip : skipAny ((splitLines code.toList).get ⟨j, hj⟩) = false)
    (hc : matchCreate ((splitLines code.toList).get ⟨j, hj⟩) = none)
    (hn : matchSetNull ((splitLines code.toList).get ⟨j, hj⟩) = none)
    (hx : matchSetNext ((splitLines code.toList).get ⟨j, hj⟩) = none)
    (ha : matchAssign ((splitLines code.toList).get ⟨j, hj⟩) = none)
    (hr : matchReassign ((splitLines code.toList).get ⟨j, hj⟩) = none) :
    (parseCode code).2.filter (fun e => e.lineIndex == j) =
      [⟨j, ( "Unrecognized syntax: \"") ++
        String.mk (jsTrim ((splitLines code.toList).get ⟨j, hj⟩)) ++
        ( "\"")⟩] ∧
    (parseCode code).1.filter (fun s => s.lineIndex == j) = [] ∧
    (∀ (j2 : Nat) (hj2 : j2 < (splitLines code.toList).length),
      (parseCode code).1.filter (fun s => s.lineIndex == j2) =
        (match classifyLine ((splitLines code.toList).get ⟨j2, hj2⟩) with
         | .step k d => [⟨k, j2, d⟩]
         | _ => ([] : List Step))) ∧
    parseCode ( "foo bar baz") =
      ([], [⟨0, ( "Unrecognized syntax: \"foo bar baz\"")⟩]) := by
  have hcl : classifyLine ((splitLines code.toList).get ⟨j, hj⟩) =
      .err (( "Unrecognized syntax: \"") ++
        String.mk (jsTrim ((splitLines code.toList).get ⟨j, hj⟩)) ++
        ( "\"")) := by
    simp only [List.get_eq_getElem, String.toList] at hskip hc hn hx ha hr
    simp [classifyLine, hskip, hc, hn, hx, ha, hr]
  have hft := parseLines_filter_at (splitLines code.toList) 0 j hj
  rw [hcl] at hft
  refine ⟨?_, ?_, ?_, by decide⟩
  · simpa using hft.2
  · simpa using hft.1
  · intro j2 hj2
    have := (parseLines_filter_at (splitLines code.toList) 0 j2 hj2).1
    simpa using this

/-- Witness for C9: the bad line `foo bar baz` at index 0 of itself. -/
theorem C9_unrecognized_fallback_witness :
    (parseCode ( "foo bar baz")).2.filter (fun e => e.lineIndex == 0) =
      [⟨0, ( "Unrecognized syntax: \"") ++
        String.mk (jsTrim ((splitLines ( "foo bar baz").toList).get
          ⟨0, by decide⟩)) ++ ( "\"")⟩] :=
  (C9_unrecognized_fallback ( "foo bar baz") 0 (by decide) (by decide)
    (by decide) (by decide) (by decide) (by decide) (by decide)).1

/-! ## Whitespace / word-character facts for the tolerance proofs -/

theorem spaceNotWord (c : Char) (h : isJsSpace c = true) :
    isWordChar c = false := by
  simp only [isJsSpace, Bool.or_eq_true, beq_iff_eq] at h
  rcases h with ((((((((((((((((((((((((rfl | rfl) | rfl) | rfl) | rfl) | rfl) | rfl) | rfl) | rfl) | rfl) | rfl) | rfl) | rfl) | rfl) | rfl) | rfl) | rfl) | rfl) | rfl) | rfl) | rfl) | rfl) | rfl) | rfl) | rfl)
  all_goals decide

theorem wordNotSpace (c : Char) (h : isWordChar c = true) :
    isJsSpace c = false := by
  rcases hsp : isJsSpace c
  · rfl
  · rw [spaceNotWord c hsp] at h
    cases h

theorem dropWhile_append_of_all (p : Char → Bool) (l1 l2 : List Char)
    (h : ∀ c ∈ l1, p c = true) :
    (l1 ++ l2).dropWhile p = l2.dropWhile p := by
  induction l1 with
  | nil => simp
  | cons c t ih =>
    simp only [List.cons_append, List.dropWhile_cons, h c (by simp), if_true]
    exact ih (fun x hx => h x (by simp [hx]))

theorem dropWhile_eq_nil_of_all (p : Char → Bool) (l : List Char)
    (h : ∀ c ∈ l, p c = true) : l.dropWhile p = [] := by
  induction l with
  | nil => simp
  | cons c t ih =>
    simp only [List.dropWhile_cons, h c (by simp), if_true]
    exact ih (fun x hx => h x (by simp [hx]))

theorem span_word (v rest : List Char) (hv : ∀ c ∈ v, isWordChar c = true)
    (hr : ∀ c, rest.head? = some c → isWordChar c = false) :
    (v ++ rest).takeWhile isWordChar = v ∧
      (v ++ rest).dropWhile isWordChar = rest := by
  induction v with
  | nil =>
    cases rest with
    | nil => simp
    | cons c t =>
      have hc := hr c rfl
      simp [List.takeWhile_cons, List.dropWhile_cons, hc]
  | cons c t ih =>
    have hc := hv c (by simp)
    have iht := ih (fun x hx => hv x (by simp [hx]))
    simp [List.takeWhile_cons, List.dropWhile_cons, hc, iht.1, iht.2]

theorem word1_span (v rest : List Char) (hv : ∀ c ∈ v, isWordChar c = true)
    (hne : v ≠ [])
    (hr : ∀ c, rest.head? = some c → isWordChar c = false) :
    word1 (v ++ rest) = some (v, rest) := by
  have hs := span_word v rest hv hr
  simp [word1, hs.1, hs.2, hne]

/-- Whitespace and semicolon tolerance of the SetNull shape: any
all-whitespace padding around `v.next = null` — with or without the trailing
semicolon — is accepted, and captures exactly the variable `v`. -/
theorem matchSetNull_tolerant (a b v : List Char)
    (hA : ∀ c ∈ a, isJsSpace c = true) (hb : ∀ c ∈ b, isJsSpace c = true)
    (hv : ∀ c ∈ v, isWordChar c = true) (hne : v ≠ []) :
    matchSetNull (a ++ (v ++ (( ".next = null;").toList ++ b))) =
      some (String.mk v) ∧
    matchSetNull (a ++ (v ++ (( ".next = null").toList ++ b))) =
      some (String.mk v) := by
  have hbdrop : b.dropWhile isJsSpace = [] := dropWhile_eq_nil_of_all _ b hb
  have hsp : isJsSpace ' ' = true := by decide
  have hnw : isJsSpace 'n' = false := by decide
  have heq : isJsSpace '=' = false := by decide
  have hsc : isJsSpace ';' = false := by decide
  obtain ⟨c0, t0, rfl⟩ : ∃ c0 t0, v = c0 :: t0 := by
    cases v with
    | nil => exact absurd rfl hne
    | cons c0 t0 => exact ⟨c0, t0, rfl⟩
  have hc0 : isJsSpace c0 = false := wordNotSpace c0 (hv c0 (by simp))
  constructor
  · have hdropA : dropSpaces
        (a ++ ((c0 :: t0) ++ (( ".next = null;").toList ++ b))) =
        (c0 :: t0) ++ (( ".next = null;").toList ++ b) := by
      unfold dropSpaces
      rw [dropWhile_append_of_all _ a _ hA]
      simp [List.dropWhile_cons, hc0]
    have hword : word1 ((c0 :: t0) ++ (( ".next = null;").toList ++ b)) =
        some (c0 :: t0, ( ".next = null;").toList ++ b) := by
      refine word1_span _ _ hv (by simp) ?_
      intro c hc
      have h0 : ((( ".next = null;").toList ++ b)).head? = some '.' := rfl
      rw [h0] at hc
      injection hc with hc
      subst hc
      decide
    simp only [matchSetNull, hdropA, hword, Option.some_bind]
    simp [lit, chC, dropSpaces, endOk, List.dropWhile_cons, hsp, hnw, heq,
      hsc, hbdrop]
  · have hdropA : dropSpaces
        (a ++ ((c0 :: t0) ++ (( ".next = null").toList ++ b))) =
        (c0 :: t0) ++ (( ".next = null").toList ++ b) := by
      unfold dropSpaces
      rw [dropWhile_append_of_all _ a _ hA]
      simp [List.dropWhile_cons, hc0]
    have hword : word1 ((c0 :: t0) ++ (( ".next = null").toList ++ b)) =
        some (c0 :: t0, ( ".next = null").toList ++ b) := by
      refine word1_span _ _ hv (by simp) ?_
      intro c hc
      have h0 : ((( ".next = null").toList ++ b)).head? = some '.' := rfl
      rw [h0] at hc
      injection hc with hc
      subst hc
      decide
    simp only [matchSetNull, hdropA, hword, Option.some_bind]
    simp [lit, chC, dropSpaces, endOk, List.dropWhile_cons, hsp, hnw, heq,
      hsc, hbdrop]

theorem digitIsWord (c : Char) (h : isDigitChar c = true) :
    isWordChar c = true := by
  simp only [isDigitChar] at h
  simp [isWordChar, Char.isAlphanum, h]

theorem digitNotSpace (c : Char) (h : isDigitChar c = true) :
    isJsSpace c = false :=
  wordNotSpace c (digitIsWord c h)

theorem digitNeMinus (c : Char) (h : isDigitChar c = true) : ¬(c = '-') := by
  intro he
  subst he
  exact absurd h (by decide)

theorem dropSpaces_pad (a R : List Char)
    (hA : ∀ c ∈ a, isJsSpace c = true)
    (hR : ∀ c, R.head? = some c → isJsSpace c = false) :
    dropSpaces (a ++ R) = R := by
  unfold dropSpaces
  rw [dropWhile_append_of_all _ a _ hA]
  cases R with
  | nil => simp
  | cons c t => simp [List.dropWhile_cons, hR c rfl]

theorem span_all (p : Char → Bool) (v rest : List Char)
    (hv : ∀ c ∈ v, p c = true)
    (hr : ∀ c, rest.head? = some c → p c = false) :
    (v ++ rest).takeWhile p = v ∧ (v ++ rest).dropWhile p = rest := by
  induction v with
  | nil =>
    cases rest with
    | nil => simp
    | cons c t =>
      have hc := hr c rfl
      simp [List.takeWhile_cons, List.dropWhile_cons, hc]
  | cons c t ih =>
    have hc := hv c (by simp)
    have iht := ih (fun x hx => hv x (by simp [hx]))
    simp [List.takeWhile_cons, List.dropWhile_cons, hc, iht.1, iht.2]

theorem digits1_span (v rest : List Char)
    (hv : ∀ c ∈ v, isDigitChar c = true) (hne : v ≠ [])
    (hr : ∀ c, rest.head? = some c → isDigitChar c = false) :
    digits1 (v ++ rest) = some (v, rest) := by
  have hs := span_all isDigitChar v rest hv hr
  simp [digits1, hs.1, hs.2, hne]

theorem head_space_not_word (b : List Char)
    (hb : ∀ c ∈ b, isJsSpace c = true) :
    ∀ c, b.head? = some c → isWordChar c = false := by
  intro c hc
  cases b with
  | nil => simp at hc
  | cons x t =>
    simp only [List.head?_cons, Option.some.injEq] at hc
    subst hc
    exact spaceNotWord x (hb x (by simp))

set_option maxHeartbeats 1600000 in
/-- Whitespace and semicolon tolerance of the CreateNode shape. -/
theorem matchCreate_tolerant (a b v d : List Char)
    (hA : ∀ c ∈ a, isJsSpace c = true) (hb : ∀ c ∈ b, isJsSpace c = true)
    (hv : ∀ c ∈ v, isWordChar c = true) (hd : ∀ c ∈ d, isDigitChar c = true)
    (hnev : v ≠ []) (hned : d ≠ []) :
    matchCreate (a ++ (( "Node ").toList ++ (v ++ (( " = new Node(").toList ++
        (d ++ (( ");").toList ++ b)))))) =
      some (String.mk v, String.mk d, (natOfDigits d : Int)) ∧
    matchCreate (a ++ (( "Node ").toList ++ (v ++ (( " = new Node(").toList ++
        (d ++ (( ")").toList ++ b)))))) =
      some (String.mk v, String.mk d, (natOfDigits d : Int)) := by
  have hbdrop : b.dropWhile isJsSpace = [] := dropWhile_eq_nil_of_all _ b hb
  have f1 : isJsSpace ' ' = true := by decide
  have f2 : isJsSpace '=' = false := by decide
  have f3 : isJsSpace ';' = false := by decide
  have f4 : isJsSpace ')' = false := by decide
  have f5 : isJsSpace '(' = false := by decide
  have f6 : isJsSpace 'n' = false := by decide
  have f7 : isJsSpace 'N' = false := by decide
  obtain ⟨c0, t0, rfl⟩ : ∃ c0 t0, v = c0 :: t0 := by
    cases v with
    | nil => exact absurd rfl hnev
    | cons c0 t0 => exact ⟨c0, t0, rfl⟩
  obtain ⟨d0, t1, rfl⟩ : ∃ d0 t1, d = d0 :: t1 := by
    cases d with
    | nil => exact absurd rfl hned
    | cons d0 t1 => exact ⟨d0, t1, rfl⟩
  have hc0 : isJsSpace c0 = false := wordNotSpace c0 (hv c0 (by simp))
  have hd0 : isJsSpace d0 = false := digitNotSpace d0 (hd d0 (by simp))
  have hneg : ¬(d0 = '-') := digitNeMinus d0 (hd d0 (by simp))
  constructor
  · have hpad : dropSpaces (a ++ (( "Node ").toList ++ ((c0 :: t0) ++
        (( " = new Node(").toList ++ ((d0 :: t1) ++
          (( ");").toList ++ b)))))) =
        ( "Node ").toList ++ ((c0 :: t0) ++ (( " = new Node(").toList ++
          ((d0 :: t1) ++ (( ");").toList ++ b)))) := by
      refine dropSpaces_pad _ _ hA ?_
      intro c hc
      have h0 : ((( "Node ").toList ++ ((c0 :: t0) ++
          (( " = new Node(").toList ++ ((d0 :: t1) ++
            (( ");").toList ++ b))))).head?) = some 'N' := rfl
      rw [h0] at hc
      injection hc with hc
      subst hc
      decide
    have hword : word1 (c0 :: (t0 ++ (' ' :: '=' :: ' ' :: 'n' :: 'e' :: 'w' :: ' ' :: 'N' :: 'o' :: 'd' :: 'e' :: '(' :: (d0 :: (t1 ++ (')' :: ';' :: b)))))) =
        some (c0 :: t0, ' ' :: '=' :: ' ' :: 'n' :: 'e' :: 'w' :: ' ' :: 'N' :: 'o' :: 'd' :: 'e' :: '(' :: (d0 :: (t1 ++ (')' :: ';' :: b)))) := by
      have := word1_span (c0 :: t0) (' ' :: '=' :: ' ' :: 'n' :: 'e' :: 'w' :: ' ' :: 'N' :: 'o' :: 'd' :: 'e' :: '(' :: (d0 :: (t1 ++ (')' :: ';' :: b))))
        hv hnev (by intro c hc; injection hc with hc; subst hc; decide)
      simpa using this
    have hdig : digits1 (d0 :: (t1 ++ (')' :: ';' :: b))) = some (d0 :: t1, ')' :: ';' :: b) := by
      have := digits1_span (d0 :: t1) (')' :: ';' :: b) hd hned
        (by intro c hc; injection hc with hc; subst hc; decide)
      simpa using this
    simp only [matchCreate, hpad]
    simp [lit, chSp, chC, dropSpaces, endOk, List.dropWhile_cons, hword,
      hdig, hneg, hc0, hd0, hbdrop, f1, f2, f3, f4, f5, f6, f7]
  · have hpad : dropSpaces (a ++ (( "Node ").toList ++ ((c0 :: t0) ++
        (( " = new Node(").toList ++ ((d0 :: t1) ++
          (( ")").toList ++ b)))))) =
        ( "Node ").toList ++ ((c0 :: t0) ++ (( " = new Node(").toList ++
          ((d0 :: t1) ++ (( ")").toList ++ b)))) := by
      refine dropSpaces_pad _ _ hA ?_
      intro c hc
      have h0 : ((( "Node ").toList ++ ((c0 :: t0) ++
          (( " = new Node(").toList ++ ((d0 :: t1) ++
            (( ")").toList ++ b))))).head?) = some 'N' := rfl
      rw [h0] at hc
      injection hc with hc
      subst hc
      decide
    have hword : word1 (c0 :: (t0 ++ (' ' :: '=' :: ' ' :: 'n' :: 'e' :: 'w' :: ' ' :: 'N' :: 'o' :: 'd' :: 'e' :: '(' :: (d0 :: (t1 ++ (')' :: b)))))) =
        some (c0 :: t0, ' ' :: '=' :: ' ' :: 'n' :: 'e' :: 'w' :: ' ' :: 'N' :: 'o' :: 'd' :: 'e' :: '(' :: (d0 :: (t1 ++ (')' :: b)))) := by
      have := word1_span (c0 :: t0) (' ' :: '=' :: ' ' :: 'n' :: 'e' :: 'w' :: ' ' :: 'N' :: 'o' :: 'd' :: 'e' :: '(' :: (d0 :: (t1 ++ (')' :: b))))
        hv hnev (by intro c hc; injection hc with hc; subst hc; decide)
      simpa using this
    have hdig : digits1 (d0 :: (t1 ++ (')' :: b))) = some (d0 :: t1, ')' :: b) := by
      have := digits1_span (d0 :: t1) (')' :: b) hd hned
        (by intro c hc; injection hc with hc; subst hc; decide)
      simpa using this
    simp only [matchCreate, hpad]
    simp [lit, chSp, chC, dropSpaces, endOk, List.dropWhile_cons, hword,
      hdig, hneg, hc0, hd0, hbdrop, f1, f2, f3, f4, f5, f6, f7]

set_option maxHeartbeats 1600000 in
/-- Whitespace and semicolon tolerance of the SetNext shape. -/
theorem matchSetNext_tolerant (a b v w : List Char)
    (hA : ∀ c ∈ a, isJsSpace c = true) (hb : ∀ c ∈ b, isJsSpace c = true)
    (hv : ∀ c ∈ v, isWordChar c = true) (hw : ∀ c ∈ w, isWordChar c = true)
    (hnev : v ≠ []) (hnew : w ≠ []) :
    matchSetNext (a ++ (v ++ (( ".next = ").toList ++ (w ++
        (( ";").toList ++ b))))) = some (String.mk v, String.mk w) ∧
    matchSetNext (a ++ (v ++ (( ".next = ").toList ++ (w ++ b)))) =
      some (String.mk v, String.mk w) := by
  have hbdrop : b.dropWhile isJsSpace = [] := dropWhile_eq_nil_of_all _ b hb
  have f1 : isJsSpace ' ' = true := by decide
  have f2 : isJsSpace '=' = false := by decide
  have f3 : isJsSpace ';' = false := by decide
  obtain ⟨c0, t0, rfl⟩ : ∃ c0 t0, v = c0 :: t0 := by
    cases v with
    | nil => exact absurd rfl hnev
    | cons c0 t0 => exact ⟨c0, t0, rfl⟩
  obtain ⟨e0, t2, rfl⟩ : ∃ e0 t2, w = e0 :: t2 := by
    cases w with
    | nil => exact absurd rfl hnew
    | cons e0 t2 => exact ⟨e0, t2, rfl⟩
  have hc0 : isJsSpace c0 = false := wordNotSpace c0 (hv c0 (by simp))
  have he0 : isJsSpace e0 = false := wordNotSpace e0 (hw e0 (by simp))
  constructor
  · have hpad : dropSpaces (a ++ ((c0 :: t0) ++ (( ".next = ").toList ++
        ((e0 :: t2) ++ (( ";").toList ++ b))))) =
        (c0 :: t0) ++ (( ".next = ").toList ++
          ((e0 :: t2) ++ (( ";").toList ++ b))) := by
      refine dropSpaces_pad _ _ hA ?_
      intro c hc
      have h0 : (((c0 :: t0) ++ (( ".next = ").toList ++
          ((e0 :: t2) ++ (( ";").toList ++ b)))).head?) = some c0 := rfl
      rw [h0] at hc
      injection hc with hc
      subst hc
      exact hc0
    have hwordv : word1 (c0 :: (t0 ++ ('.' :: 'n' :: 'e' :: 'x' :: 't' ::
        ' ' :: '=' :: ' ' :: (e0 :: (t2 ++ (';' :: b)))))) =
        some (c0 :: t0, '.' :: 'n' :: 'e' :: 'x' :: 't' ::
          ' ' :: '=' :: ' ' :: (e0 :: (t2 ++ (';' :: b)))) := by
      have := word1_span (c0 :: t0) ('.' :: 'n' :: 'e' :: 'x' :: 't' ::
          ' ' :: '=' :: ' ' :: (e0 :: (t2 ++ (';' :: b))))
        hv hnev (by intro c hc; injection hc with hc; subst hc; decide)
      simpa using this
    have hwordw : word1 (e0 :: (t2 ++ (';' :: b))) =
        some (e0 :: t2, ';' :: b) := by
      have := word1_span (e0 :: t2) (';' :: b) hw hnew
        (by intro c hc; injection hc with hc; subst hc; decide)
      simpa using this
    simp only [matchSetNext, hpad]
    simp [lit, chC, dropSpaces, endOk, List.dropWhile_cons, hwordv, hwordw,
      hc0, he0, hbdrop, f1, f2, f3]
  · have hpad : dropSpaces (a ++ ((c0 :: t0) ++ (( ".next = ").toList ++
        ((e0 :: t2) ++ b)))) =
        (c0 :: t0) ++ (( ".next = ").toList ++ ((e0 :: t2) ++ b)) := by
      refine dropSpaces_pad _ _ hA ?_
      intro c hc
      have h0 : (((c0 :: t0) ++ (( ".next = ").toList ++
          ((e0 :: t2) ++ b))).head?) = some c0 := rfl
      rw [h0] at hc
      injection hc with hc
      subst hc
      exact hc0
    have hwordv : word1 (c0 :: (t0 ++ ('.' :: 'n' :: 'e' :: 'x' :: 't' ::
        ' ' :: '=' :: ' ' :: (e0 :: (t2 ++ b))))) =
        some (c0 :: t0, '.' :: 'n' :: 'e' :: 'x' :: 't' ::
          ' ' :: '=' :: ' ' :: (e0 :: (t2 ++ b))) := by
      have := word1_span (c0 :: t0) ('.' :: 'n' :: 'e' :: 'x' :: 't' ::
          ' ' :: '=' :: ' ' :: (e0 :: (t2 ++ b)))
        hv hnev (by intro c hc; injection hc with hc; subst hc; decide)
      simpa using this
    have hwordw : word1 (e0 :: (t2 ++ b)) = some (e0 :: t2, b) := by
      have := word1_span (e0 :: t2) b hw hnew (head_space_not_word b hb)
      simpa using this
    simp only [matchSetNext, hpad]
    simp [lit, chC, dropSpaces, endOk, List.dropWhile_cons, hwordv, hwordw,
      hc0, he0, hbdrop, f1, f2, f3]

set_option maxHeartbeats 1600000 in
/-- Whitespace and semicolon tolerance of the declaration AssignVar shape. -/
theorem matchAssign_tolerant (a b v s : List Char)
    (hA : ∀ c ∈ a, isJsSpace c = true) (hb : ∀ c ∈ b, isJsSpace c = true)
    (hv : ∀ c ∈ v, isWordChar c = true) (hs : ∀ c ∈ s, isWordChar c = true)
    (hnev : v ≠ []) (hnes : s ≠ []) :
    matchAssign (a ++ (( "Node ").toList ++ (v ++ (( " = ").toList ++
        (s ++ (( ";").toList ++ b)))))) = some (String.mk v, String.mk s) ∧
    matchAssign (a ++ (( "Node ").toList ++ (v ++ (( " = ").toList ++
        (s ++ b))))) = some (String.mk v, String.mk s) := by
  have hbdrop : b.dropWhile isJsSpace = [] := dropWhile_eq_nil_of_all _ b hb
  have f1 : isJsSpace ' ' = true := by decide
  have f2 : isJsSpace '=' = false := by decide
  have f3 : isJsSpace ';' = false := by decide
  obtain ⟨c0, t0, rfl⟩ : ∃ c0 t0, v = c0 :: t0 := by
    cases v with
    | nil => exact absurd rfl hnev
    | cons c0 t0 => exact ⟨c0, t0, rfl⟩
  obtain ⟨e0, t2, rfl⟩ : ∃ e0 t2, s = e0 :: t2 := by
    cases s with
    | nil => exact absurd rfl hnes
    | cons e0 t2 => exact ⟨e0, t2, rfl⟩
  have hc0 : isJsSpace c0 = false := wordNotSpace c0 (hv c0 (by simp))
  have he0 : isJsSpace e0 = false := wordNotSpace e0 (hs e0 (by simp))
  constructor
  · have hpad : dropSpaces (a ++ (( "Node ").toList ++ ((c0 :: t0) ++
        (( " = ").toList ++ ((e0 :: t2) ++ (( ";").toList ++ b)))))) =
        ( "Node ").toList ++ ((c0 :: t0) ++ (( " = ").toList ++
          ((e0 :: t2) ++ (( ";").toList ++ b)))) := by
      refine dropSpaces_pad _ _ hA ?_
      intro c hc
      have h0 : ((( "Node ").toList ++ ((c0 :: t0) ++ (( " = ").toList ++
          ((e0 :: t2) ++ (( ";").toList ++ b))))).head?) = some 'N' := rfl
      rw [h0] at hc
      injection hc with hc
      subst hc
      decide
    have hwordv : word1 (c0 :: (t0 ++ (' ' :: '=' :: ' ' ::
        (e0 :: (t2 ++ (';' :: b)))))) =
        some (c0 :: t0, ' ' :: '=' :: ' ' :: (e0 :: (t2 ++ (';' :: b)))) := by
      have := word1_span (c0 :: t0)
        (' ' :: '=' :: ' ' :: (e0 :: (t2 ++ (';' :: b))))
        hv hnev (by intro c hc; injection hc with hc; subst hc; decide)
      simpa using this
    have hwords : word1 (e0 :: (t2 ++ (';' :: b))) =
        some (e0 :: t2, ';' :: b) := by
      have := word1_span (e0 :: t2) (';' :: b) hs hnes
        (by intro c hc; injection hc with hc; subst hc; decide)
      simpa using this
    simp only [matchAssign, hpad]
    simp [lit, chSp, chC, dropSpaces, endOk, List.dropWhile_cons, hwordv,
      hwords, hc0, he0, hbdrop, f1, f2, f3]
  · have hpad : dropSpaces (a ++ (( "Node ").toList ++ ((c0 :: t0) ++
        (( " = ").toList ++ ((e0 :: t2) ++ b))))) =
        ( "Node ").toList ++ ((c0 :: t0) ++ (( " = ").toList ++
          ((e0 :: t2) ++ b))) := by
      refine dropSpaces_pad _ _ hA ?_
      intro c hc
      have h0 : ((( "Node ").toList ++ ((c0 :: t0) ++ (( " = ").toList ++
          ((e0 :: t2) ++ b)))).head?) = some 'N' := rfl
      rw [h0] at hc
      injection hc with hc
      subst hc
      decide
    have hwordv : word1 (c0 :: (t0 ++ (' ' :: '=' :: ' ' ::
        (e0 :: (t2 ++ b))))) =
        some (c0 :: t0, ' ' :: '=' :: ' ' :: (e0 :: (t2 ++ b))) := by
      have := word1_span (c0 :: t0) (' ' :: '=' :: ' ' :: (e0 :: (t2 ++ b)))
        hv hnev (by intro c hc; injection hc with hc; subst hc; decide)
      simpa using this
    have hwords : word1 (e0 :: (t2 ++ b)) = some (e0 :: t2, b) := by
      have := word1_span (e0 :: t2) b hs hnes (head_space_not_word b hb)
      simpa using this
    simp only [matchAssign, hpad]
    simp [lit, chSp, chC, dropSpaces, endOk, List.dropWhile_cons, hwordv,
      hwords, hc0, he0, hbdrop, f1, f2, f3]

set_option maxHeartbeats 1600000 in
/-- Whitespace and semicolon tolerance of the reassignment AssignVar shape. -/
theorem matchReassign_tolerant (a b v s : List Char)
    (hA : ∀ c ∈ a, isJsSpace c = true) (hb : ∀ c ∈ b, isJsSpace c = true)
    (hv : ∀ c ∈ v, isWordChar c = true) (hs : ∀ c ∈ s, isWordChar c = true)
    (hnev : v ≠ []) (hnes : s ≠ []) :
    matchReassign (a ++ (v ++ (( " = ").toList ++
        (s ++ (( ";").toList ++ b))))) = some (String.mk v, String.mk s) ∧
    matchReassign (a ++ (v ++ (( " = ").toList ++ (s ++ b)))) =
      some (String.mk v, String.mk s) := by
  have hbdrop : b.dropWhile isJsSpace = [] := dropWhile_eq_nil_of_all _ b hb
  have f1 : isJsSpace ' ' = true := by decide
  have f2 : isJsSpace '=' = false := by decide
  have f3 : isJsSpace ';' = false := by decide
  obtain ⟨c0, t0, rfl⟩ : ∃ c0 t0, v = c0 :: t0 := by
    cases v with
    | nil => exact absurd rfl hnev
    | cons c0 t0 => exact ⟨c0, t0, rfl⟩
  obtain ⟨e0, t2, rfl⟩ : ∃ e0 t2, s = e0 :: t2 := by
    cases s with
    | nil => exact absurd rfl hnes
    | cons e0 t2 => exact ⟨e0, t2, rfl⟩
  have hc0 : isJsSpace c0 = false := wordNotSpace c0 (hv c0 (by simp))
  have he0 : isJsSpace e0 = false := wordNotSpace e0 (hs e0 (by simp))
  constructor
  · have hpad : dropSpaces (a ++ ((c0 :: t0) ++ (( " = ").toList ++
        ((e0 :: t2) ++ (( ";").toList ++ b))))) =
        (c0 :: t0) ++ (( " = ").toList ++
          ((e0 :: t2) ++ (( ";").toList ++ b))) := by
      refine dropSpaces_pad _ _ hA ?_
      intro c hc
      have h0 : (((c0 :: t0) ++ (( " = ").toList ++
          ((e0 :: t2) ++ (( ";").toList ++ b)))).head?) = some c0 := rfl
      rw [h0] at hc
      injection hc with hc
      subst hc
      exact hc0
    have hwordv : word1 (c0 :: (t0 ++ (' ' :: '=' :: ' ' ::
        (e0 :: (t2 ++ (';' :: b)))))) =
        some (c0 :: t0, ' ' :: '=' :: ' ' :: (e0 :: (t2 ++ (';' :: b)))) := by
      have := word1_span (c0 :: t0)
        (' ' :: '=' :: ' ' :: (e0 :: (t2 ++ (';' :: b))))
        hv hnev (by intro c hc; injection hc with hc; subst hc; decide)
      simpa using this
    have hwords : word1 (e0 :: (t2 ++ (';' :: b))) =
        some (e0 :: t2, ';' :: b) := by
      have := word1_span (e0 :: t2) (';' :: b) hs hnes
        (by intro c hc; injection hc with hc; subst hc; decide)
      simpa using this
    simp only [matchReassign, hpad]
    simp [lit, chC, dropSpaces, endOk, List.dropWhile_cons, hwordv, hwords,
      hc0, he0, hbdrop, f1, f2, f3]
  · have hpad : dropSpaces (a ++ ((c0 :: t0) ++ (( " = ").toList ++
        ((e0 :: t2) ++ b)))) =
        (c0 :: t0) ++ (( " = ").toList ++ ((e0 :: t2) ++ b)) := by
      refine dropSpaces_pad _ _ hA ?_
      intro c hc
      have h0 : (((c0 :: t0) ++ (( " = ").toList ++
          ((e0 :: t2) ++ b))).head?) = some c0 := rfl
      rw [h0] at hc
      injection hc with hc
      subst hc
      exact hc0
    have hwordv : word1 (c0 :: (t0 ++ (' ' :: '=' :: ' ' ::
        (e0 :: (t2 ++ b))))) =
        some (c0 :: t0, ' ' :: '=' :: ' ' :: (e0 :: (t2 ++ b))) := by
      have := word1_span (c0 :: t0) (' ' :: '=' :: ' ' :: (e0 :: (t2 ++ b)))
        hv hnev (by intro c hc; injection hc with hc; subst hc; decide)
      simpa using this
    have hwords : word1 (e0 :: (t2 ++ b)) = some (e0 :: t2, b) := by
      have := word1_span (e0 :: t2) b hs hnes (head_space_not_word b hb)
      simpa using this
    simp only [matchReassign, hpad]
    simp [lit, chC, dropSpaces, endOk, List.dropWhile_cons, hwordv, hwords,
      hc0, he0, hbdrop, f1, f2, f3]

/-- C6: for a line surviving the boilerplate filter, the five statement
shapes are tried in the fixed precedence order CreateNode, SetNull, SetNext,
declaration AssignVar, reassignment AssignVar — first match wins and each
shape is consulted only after all previous ones failed; every one of the
five shapes tolerates arbitrary surrounding whitespace and an optional
trailing semicolon (stated generically, for all paddings and identifiers);
in particular `x.next = null;` also matches the SetNext shape with target
variable `null`, yet precedence produces a SetNull step, never that SetNext
step. -/
theorem C6_shape_precedence :
    (∀ cs : List Char, skipAny cs = false →
      ∀ (v raw : String) (n : Int), matchCreate cs = some (v, raw, n) →
        ∃ d, classifyLine cs = .step (.createNode v n) d) ∧
    (∀ cs : List Char, skipAny cs = false → matchCreate cs = none →
      ∀ v : String, matchSetNull cs = some v →
        ∃ d, classifyLine cs = .step (.setNull v) d) ∧
    (∀ cs : List Char, skipAny cs = false → matchCreate cs = none →
      matchSetNull cs = none →
      ∀ v t : String, matchSetNext cs = some (v, t) →
        ∃ d, classifyLine cs = .step (.setNext v t) d) ∧
    (∀ cs : List Char, skipAny cs = false → matchCreate cs = none →
      matchSetNull cs = none → matchSetNext cs = none →
      ∀ v s : String, matchAssign cs = some (v, s) →
        ∃ d, classifyLine cs = .step (.assignVar v s) d) ∧
    (∀ cs : List Char, skipAny cs = false → matchCreate cs = none →
      matchSetNull cs = none → matchSetNext cs = none →
      matchAssign cs = none →
      ∀ v s : String, matchReassign cs = some (v, s) →
        ∃ d, classifyLine cs = .step (.assignVar v s) d) ∧
    (matchSetNext (( "x.next = null;").toList) =
        some (( "x"), ( "null")) ∧
      classifyLine (( "x.next = null;").toList) =
        .step (.setNull ( "x")) ( "Set `x.next` = null")) ∧
    (∀ a b v d : List Char,
      (∀ c ∈ a, isJsSpace c = true) → (∀ c ∈ b, isJsSpace c = true) →
      (∀ c ∈ v, isWordChar c = true) → (∀ c ∈ d, isDigitChar c = true) →
      v ≠ [] → d ≠ [] →
      matchCreate (a ++ (( "Node ").toList ++ (v ++
          (( " = new Node(").toList ++ (d ++ (( ");").toList ++ b)))))) =
        some (String.mk v, String.mk d, (natOfDigits d : Int)) ∧
      matchCreate (a ++ (( "Node ").toList ++ (v ++
          (( " = new Node(").toList ++ (d ++ (( ")").toList ++ b)))))) =
        some (String.mk v, String.mk d, (natOfDigits d : Int))) ∧
    (∀ a b v : List Char,
      (∀ c ∈ a, isJsSpace c = true) → (∀ c ∈ b, isJsSpace c = true) →
      (∀ c ∈ v, isWordChar c = true) → v ≠ [] →
      matchSetNull (a ++ (v ++ (( ".next = null;").toList ++ b))) =
        some (String.mk v) ∧
      matchSetNull (a ++ (v ++ (( ".next = null").toList ++ b))) =
        some (String.mk v)) ∧
    (∀ a b v w : List Char,
      (∀ c ∈ a, isJsSpace c = true) → (∀ c ∈ b, isJsSpace c = true) →
      (∀ c ∈ v, isWordChar c = true) → (∀ c ∈ w, isWordChar c = true) →
      v ≠ [] → w ≠ [] →
      matchSetNext (a ++ (v ++ (( ".next = ").toList ++ (w ++
          (( ";").toList ++ b))))) = some (String.mk v, String.mk w) ∧
      matchSetNext (a ++ (v ++ (( ".next = ").toList ++ (w ++ b)))) =
        some (String.mk v, String.mk w)) ∧
    (∀ a b v s : List Char,
      (∀ c ∈ a, isJsSpace c = true) → (∀ c ∈ b, isJsSpace c = true) →
      (∀ c ∈ v, isWordChar c = true) → (∀ c ∈ s, isWordChar c = true) →
      v ≠ [] → s ≠ [] →
      matchAssign (a ++ (( "Node ").toList ++ (v ++ (( " = ").toList ++
          (s ++ (( ";").toList ++ b)))))) = some (String.mk v, String.mk s) ∧
      matchAssign (a ++ (( "Node ").toList ++ (v ++ (( " = ").toList ++
          (s ++ b))))) = some (String.mk v, String.mk s)) ∧
    (∀ a b v s : List Char,
      (∀ c ∈ a, isJsSpace c = true) → (∀ c ∈ b, isJsSpace c = true) →
      (∀ c ∈ v, isWordChar c = true) → (∀ c ∈ s, isWordChar c = true) →
      v ≠ [] → s ≠ [] →
      matchReassign (a ++ (v ++ (( " = ").toList ++
          (s ++ (( ";").toList ++ b))))) = some (String.mk v, String.mk s) ∧
      matchReassign (a ++ (v ++ (( " = ").toList ++ (s ++ b)))) =
        some (String.mk v, String.mk s)) ∧
    (classifyLine (( "   Node n1 = new Node(-3)  ").toList) =
        .step (.createNode ( "n1") (-3))
          ( "Create Node(-3) → assign to `n1`") ∧
      classifyLine (( "  x.next = y  ").toList) =
        .step (.setNext ( "x") ( "y")) ( "Link `x.next` → `y`") ∧
      classifyLine (( "  Node y = x  ").toList) =
        .step (.assignVar ( "y") ( "x"))
          ( "Declare `y` → points to same node as `x`") ∧
      classifyLine (( "  y = x  ").toList) =
        .step (.assignVar ( "y") ( "x"))
          ( "Reassign `y` → points to same node as `x`")) := by
  refine ⟨?_, ?_, ?_, ?_, ?_, ⟨by decide, by decide⟩, matchCreate_tolerant,
    matchSetNull_tolerant, matchSetNext_tolerant, matchAssign_tolerant,
    matchReassign_tolerant, by decide, by decide, by decide, by decide⟩
  · intro cs hs v raw n hm
    exact ⟨( "Create Node(") ++ raw ++ ( ") → assign to `") ++ v ++ ( "`"),
      by simp [classifyLine, hs, hm]⟩
  · intro cs hs h1 v hm
    exact ⟨( "Set `") ++ v ++ ( ".next` = null"),
      by simp [classifyLine, hs, h1, hm]⟩
  · intro cs hs h1 h2 v t hm
    exact ⟨( "Link `") ++ v ++ ( ".next` → `") ++ t ++ ( "`"),
      by simp [classifyLine, hs, h1, h2, hm]⟩
  · intro cs hs h1 h2 h3 v s hm
    exact ⟨( "Declare `") ++ v ++ ( "` → points to same node as `") ++ s ++
      ( "`"), by simp [classifyLine, hs, h1, h2, h3, hm]⟩
  · intro cs hs h1 h2 h3 h4 v s hm
    exact ⟨( "Reassign `") ++ v ++ ( "` → points to same node as `") ++ s ++
      ( "`"), by simp [classifyLine, hs, h1, h2, h3, h4, hm]⟩

/-- Witness for C6: the overlap line `x.next = null;` classifies as SetNull
through the precedence clause. -/
theorem C6_shape_precedence_witness :
    ∃ d, classifyLine (( "x.next = null;").toList) =
      .step (.setNull ( "x")) d :=
  C6_shape_precedence.2.1 (( "x.next = null;").toList) (by decide)
    (by decide) ( "x") (by decide)

end LLVis
